import Mathlib

/-!
Verification of the figure-generation scripts of the arXiv-v1 repository.

The numerical code of `scripts/scripts/fig3_reverb_lag_vs_spin.py` and
`scripts/scripts/fig4_polarization_timeseries.py` is embedded over the real
numbers (the Python scripts compute with IEEE doubles; the embedding uses
exact real arithmetic, which is the idealised semantics of the formulas).
The CSV/string processing of `fig3`/`fig4` (`load_eps_list`),
`FiguresStarterKit-2025-09-20/scripts/fig6_spin_histogram.py` (`as_check`,
column selection) and `scripts/scripts/fig5_duty_cycle_vs_spin.py`
(`to_float`, `lag_to_tau_rg`, series collection) is embedded computably,
with rationals for parsed numbers and `Option`/`Except` for the
NaN sentinel and for uncaught Python exceptions.
-/

/-! ### Toy torque model (fig3 line 28, fig4 line 20) -/

/-- Embedding of `torque_balance(a, eps)`:
`(1.0 - a)**1.5 * (1.0 - 0.1*eps) - eps * a**2`.
The real power `x ** 1.5` is `Real.rpow`; every call site of the scripts has
`a < 1`, where this agrees with the Python float semantics. -/
noncomputable def torque_balance (a eps : ℝ) : ℝ :=
  (1 - a) ^ (1.5 : ℝ) * (1 - 0.1 * eps) - eps * a ^ 2

/-! ### Root bracketing helpers (fig3 lines 31-43, fig4 lines 50-57) -/

/-- Embedding of `np.sign` on reals (the scripts apply it elementwise). -/
noncomputable def rsgn (x : ℝ) : ℝ :=
  if x < 0 then -1 else if x = 0 then 0 else 1

/-- Index (counting from `i`) of the first adjacent pair of the list whose
`np.sign` values differ; models `np.where(np.diff(np.sign(y)) != 0)[0][0]`,
returning `none` when no sign change exists. -/
noncomputable def firstCrossAux : List ℝ → ℕ → Option ℕ
  | a :: b :: rest, i =>
      if rsgn a = rsgn b then firstCrossAux (b :: rest) (i + 1) else some i
  | _, _ => none

/-- First index of an adjacent sign change of the sampled values. -/
noncomputable def firstCross (ys : List ℝ) : Option ℕ :=
  firstCrossAux ys 0

/-- Embedding of `np.argmin`: index of the first occurrence of the minimum
of the list (0 on the empty list, which the scripts never pass). -/
noncomputable def argminIdx : List ℝ → ℕ
  | [] => 0
  | [_] => 0
  | a :: b :: rest =>
      if a ≤ (b :: rest).getD (argminIdx (b :: rest)) 0 then 0
      else argminIdx (b :: rest) + 1

/-- Linear interpolation of the zero crossing between sampled points,
`x1 - y1*(x2 - x1)/(y2 - y1)` (fig3 line 43, fig4 line 57). -/
noncomputable def interpZero (x1 x2 y1 y2 : ℝ) : ℝ :=
  x1 - y1 * (x2 - x1) / (y2 - y1)

/-- Sampled torque values `y = torque_balance(grid, eps)`. -/
noncomputable def tbSamples (eps : ℝ) (grid : List ℝ) : List ℝ :=
  grid.map (fun a => torque_balance a eps)

/-- Shared body of `find_equilibrium_spin` (fig3 lines 34-43) and
`find_a_eq` (fig4 lines 51-57): take the first adjacent sign change of the
sampled values and linearly interpolate the crossing inside that grid
interval; if no sign change exists, fall back to the grid point whose
sampled value has minimal absolute value. -/
noncomputable def bracketRoot (grid ys : List ℝ) : ℝ :=
  match firstCross ys with
  | none => grid.getD (argminIdx (ys.map (fun v => |v|))) 0
  | some i =>
      interpZero (grid.getD i 0) (grid.getD (i + 1) 0)
        (ys.getD i 0) (ys.getD (i + 1) 0)

/-- Embedding of `np.linspace(a, b, n)` with exact arithmetic. -/
noncomputable def linspace (a b : ℝ) (n : ℕ) : List ℝ :=
  (List.range n).map (fun i : ℕ => a + (i : ℝ) * ((b - a) / ((n : ℝ) - 1)))

/-- Default grid of `find_equilibrium_spin` (fig3 line 33). -/
noncomputable def fig3Grid : List ℝ := linspace 0.85 0.9995 2000

/-- Default grid of `find_a_eq` (fig4 line 50). -/
noncomputable def fig4Grid : List ℝ := linspace 0.85 0.9995 4000

/-- Embedding of fig3's `find_equilibrium_spin(eps, grid)`; the Python
default `grid=None` selects `np.linspace(0.85, 0.9995, 2000)` (`fig3Grid`). -/
noncomputable def find_equilibrium_spin (eps : ℝ) (grid : List ℝ) : ℝ :=
  bracketRoot grid (tbSamples eps grid)

/-- Embedding of fig4's `find_a_eq(eps, grid)`; the Python default grid is
`np.linspace(0.85, 0.9995, 4000)` (`fig4Grid`). -/
noncomputable def find_a_eq (eps : ℝ) (grid : List ℝ) : ℝ :=
  bracketRoot grid (tbSamples eps grid)

/-! ### Bounded Euler integration (fig4 lines 59-76) -/

/-- Clamping applied after each Euler step (fig4 lines 74-75):
`if a < 0.0: a = 0.0` then `if a > 0.9999: a = 0.9999`. -/
noncomputable def clamp01 (x : ℝ) : ℝ :=
  if x < 0 then 0 else if x > 0.9999 then 0.9999 else x

/-- Post-update (pre-clamp) value of one Euler step: `a + da_dt(a, eps)*dt`
(fig4 line 69). -/
noncomputable def eulerNext (f : ℝ → ℝ → ℝ) (eps dt a : ℝ) : ℝ :=
  a + f a eps * dt

/-- Clamped state entering the `(n+1)`-st Euler step of the fig4 loop. -/
noncomputable def eulerState (f : ℝ → ℝ → ℝ) (eps a0 dt : ℝ) : ℕ → ℝ
  | 0 => a0
  | n + 1 => clamp01 (eulerNext f eps dt (eulerState f eps a0 dt n))

/-- Fuel-indexed embedding of the fig4 integration loop body (lines 68-76):
update, accumulate time, test `abs(a - a_eq) < tol` and return the time, else
clamp and continue; `none` models the `np.nan` returned when the fuel
(`max_steps`) is exhausted. -/
noncomputable def timeToEqAux (f : ℝ → ℝ → ℝ) (eps a_eq dt tol : ℝ) :
    ℕ → ℝ → ℝ → Option ℝ
  | 0, _, _ => none
  | fuel + 1, a, t =>
      if |eulerNext f eps dt a - a_eq| < tol then some (t + dt)
      else timeToEqAux f eps a_eq dt tol fuel (clamp01 (eulerNext f eps dt a)) (t + dt)

/-- Embedding of fig4's `time_to_equilibrium(eps, a0, da_dt, dt, max_steps,
tol)`.  The Python defaults are `a0=0.86`, `da_dt=torque_balance`, `dt=0.5`,
`max_steps=200000`, `tol=1e-4`; callers of this embedding pass them
explicitly.  The precomputed target is `find_a_eq(eps)` on its default grid.
The first component models the returned time (`none` for `np.nan`), the
second the returned `a_eq`. -/
noncomputable def time_to_equilibrium (eps a0 : ℝ) (da_dt : ℝ → ℝ → ℝ)
    (dt : ℝ) (max_steps : ℕ) (tol : ℝ) : Option ℝ × ℝ :=
  (timeToEqAux da_dt eps (find_a_eq eps fig4Grid) dt tol max_steps a0 0,
   find_a_eq eps fig4Grid)

/-! ### Boolean-flag formatter (fig6 lines 57-61) -/

/-- Model of Python's `str.strip()`: drop leading and trailing whitespace. -/
def pyStrip (s : String) : String :=
  String.mk (((s.data.dropWhile fun c => c.isWhitespace).reverse.dropWhile
    fun c => c.isWhitespace).reverse)

/-- Model of Python's `str.lower()` (the cells here are ASCII). -/
def pyLower (s : String) : String :=
  String.mk (s.data.map Char.toLower)

/-- Truthy strings of `as_check` (fig6 line 59). -/
def asCheckTrue : List String :=
  ["1", "true", "t", "yes", "y", "✓", "check", "ok"]

/-- Falsy strings of `as_check` (fig6 line 60). -/
def asCheckFalse : List String :=
  ["0", "false", "f", "no", "n", "×", "x"]

/-- Embedding of fig6's `as_check(x)`: strip and lowercase, map truthy
strings to a check mark, falsy strings to the blank string, and return the
normalised string otherwise. -/
def as_check (x : String) : String :=
  let s := pyLower (pyStrip x)
  if s ∈ asCheckTrue then "✓"
  else if s ∈ asCheckFalse then ""
  else s

/-! ### Model of Python's float() on finite decimal literals

The scripts parse CSV cells with the builtin `float`.  `pyFloat` models it as
an exact rational: optional sign, decimal digits with an optional fractional
part, and an optional exponent, surrounded by optional whitespace; `none`
models a raised `ValueError`.  (The special spellings `nan`, `inf` and digit
underscores are outside the inputs exercised here and are not modelled.) -/

/-- Value of a digit string read in base 10. -/
def digitsVal (cs : List Char) : ℕ :=
  cs.foldl (fun n c => 10 * n + (c.toNat - 48)) 0

/-- Parse an unsigned decimal literal `digits[.digits][e[sign]digits]`. -/
def pyFloatCore (cs : List Char) : Option ℚ :=
  let ip := cs.takeWhile (fun c => c.isDigit)
  let r1 := cs.dropWhile (fun c => c.isDigit)
  let fpr : List Char × List Char :=
    match r1 with
    | '.' :: r => (r.takeWhile (fun c => c.isDigit), r.dropWhile (fun c => c.isDigit))
    | _ => ([], r1)
  if ip.isEmpty && fpr.1.isEmpty then none
  else
    let mant : ℚ := (digitsVal ip : ℚ) + (digitsVal fpr.1 : ℚ) / (10 : ℚ) ^ fpr.1.length
    match fpr.2 with
    | [] => some mant
    | 'e' :: r3 =>
        let se : Bool × List Char :=
          match r3 with
          | '+' :: r => (true, r)
          | '-' :: r => (false, r)
          | r => (true, r)
        if se.2.isEmpty || !se.2.all (fun c => c.isDigit) then none
        else some (mant * (10 : ℚ) ^ (if se.1 then (digitsVal se.2 : ℤ) else -(digitsVal se.2 : ℤ)))
    | _ => none

/-- Model of `float(s)` for a string `s`: strip, lowercase, optional sign,
then an unsigned decimal literal; `none` models a raised `ValueError`. -/
def pyFloat (s : String) : Option ℚ :=
  match (pyLower (pyStrip s)).data with
  | '+' :: r => pyFloatCore r
  | '-' :: r => (pyFloatCore r).map (fun q => -q)
  | r => pyFloatCore r

/-! ### CSV model for `load_eps_list` (fig3 lines 47-65, fig4 lines 27-41)

A `csv.DictReader` row is modelled as an association list from column name
to optional cell text (`none` models a `None` cell of a short row); the file
is its `fieldnames` (`none` models an empty file, where `DictReader` has
`fieldnames is None`) plus its data rows.  The argument `none` to
`load_eps_list` models a missing file (`FileNotFoundError`). -/

/-- CSV row: association list from column name to optional cell text. -/
abbrev CsvRow := List (String × Option String)

/-- Model of `r.get(k)` on a `DictReader` row. -/
def rowGet (r : CsvRow) (k : String) : Option String :=
  match r.lookup k with
  | some v => v
  | none => none

/-- Model of `(r.get(k) or "").strip()`. -/
def rowGetStr (r : CsvRow) (k : String) : String :=
  pyStrip ((rowGet r k).getD "")

/-- CSV file: `DictReader.fieldnames` (`none` for an empty file) and rows. -/
structure CsvFile where
  fieldnames : Option (List String)
  rows : List CsvRow

/-- Hard-coded fallback list `[0.005, 0.01, 0.02, 0.05, 0.10]`. -/
def eps_defaults : List ℚ := [0.005, 0.01, 0.02, 0.05, 0.10]

/-- Collection loop of `load_eps_list`: skip rows whose stripped
`epsilon_coup` cell is empty, parse the others with `float`, propagating an
uncaught `ValueError` (the `try` only catches `FileNotFoundError`). -/
def collectEps : List CsvRow → Except Unit (List ℚ)
  | [] => Except.ok []
  | r :: rest =>
      let s := rowGetStr r "epsilon_coup"
      if s = "" then collectEps rest
      else
        match pyFloat s with
        | none => Except.error ()
        | some q => (collectEps rest).map (fun l => q :: l)

/-- Ascending sort used by `sorted(vals)` (Python sorts floats ascending). -/
def pySorted (l : List ℚ) : List ℚ := l.mergeSort

/-- Embedding of `load_eps_list(path)` of fig3/fig4 (the two copies are
identical): defaults when the file is missing, when `fieldnames` is falsy,
or when the `epsilon_coup` column is absent; otherwise collect and sort the
non-empty cells, with defaults again when no value was collected.  An
`Except.error` models an uncaught `ValueError` from `float`. -/
def load_eps_list (file : Option CsvFile) : Except Unit (List ℚ) :=
  match file with
  | none => Except.ok eps_defaults
  | some f =>
      match f.fieldnames with
      | none => Except.ok eps_defaults
      | some fns =>
          if fns = [] then Except.ok eps_defaults
          else if "epsilon_coup" ∈ fns then
            (collectEps f.rows).map (fun vals => if vals = [] then eps_defaults else pySorted vals)
          else Except.ok eps_defaults

/-! ### Fig6 gallery-table column selection (fig6 lines 86-99)

For the column-selection logic only the key sets of the loaded rows matter
(`any(k in r for r in rows)` tests dictionary-key membership), so a row is
modelled as its list of keys. -/

/-- Preferred column order and labels of fig6 `main` (lines 86-96). -/
def fig6Preferred : List (String × String) :=
  [("name", "Name"),
   ("z", "z"),
   ("MBH_Msun", "$M_\x7b\\rm BH\x7d\\ (M_\\odot)$"),
   ("a_eq", "$a_\x7b\\rm eq\x7d$"),
   ("L_over_LEdd", "$L/L_\x7b\\rm Edd\x7d$"),
   ("FeKa_lag", "Fe K$\\alpha$ lag"),
   ("MeV_excess", "MeV/hard-X excess"),
   ("Polarization", "Polarization"),
   ("Notes", "Notes")]

/-- Embedding of fig6 line 98: keys of the preferred columns that occur in
some row, in preferred order; with no data rows, all preferred keys. -/
def fig6PresentKeys (rows : List (List String)) : List String :=
  if rows.isEmpty then fig6Preferred.map Prod.fst
  else (fig6Preferred.filter (fun kl => rows.any (fun r => r.contains kl.1))).map Prod.fst

/-- Embedding of fig6 line 99: the rendered `(key, label)` columns. -/
def fig6Cols (rows : List (List String)) : List (String × String) :=
  fig6Preferred.filter (fun kl => (fig6PresentKeys rows).contains kl.1)

/-! ### Fig5 series collection (fig5 lines 34-38, 50-70, 112-135)

After fig5's `load_rows` every cell is a stripped string, so a row is an
association list from column name to cell text; `r.get(k)` is `none` when
the column is absent. -/

/-- Fig5 row after `load_rows`. -/
abbrev Fig5Row := List (String × String)

/-- Model of `r.get(k)` on a fig5 row. -/
def fig5Get (r : Fig5Row) (k : String) : Option String := r.lookup k

/-- Embedding of fig5's `to_float(x)`: `float(x)` with every exception
mapped to the NaN sentinel, which is modelled as `none`. -/
def to_float (x : Option String) : Option ℚ :=
  match x with
  | none => none
  | some s => pyFloat s

/-- Constant `RG_OVER_C_S = 4.925490947e-6` (fig5 line 17). -/
def RG_OVER_C_S : ℚ := 4.925490947e-6

/-- Seconds extracted from the first parseable of `lag_s`, `lag_ms`,
`lag_ks`, with its scale (fig5 lines 60-64). -/
def lagSeconds (r : Fig5Row) : Option ℚ :=
  match to_float (fig5Get r "lag_s") with
  | some v => some (v * 1)
  | none =>
      match to_float (fig5Get r "lag_ms") with
      | some v => some (v * (1 / 1000))
      | none =>
          match to_float (fig5Get r "lag_ks") with
          | some v => some (v * 1000)
          | none => none

/-- Embedding of fig5's `lag_to_tau_rg(r)` (lines 50-70): prefer `lag_rg`;
else convert seconds via `MBH_Msun` when both are non-NaN and the mass is
positive; NaN results are `none`. -/
def lag_to_tau_rg (r : Fig5Row) : Option ℚ :=
  match to_float (fig5Get r "lag_rg") with
  | some v => some v
  | none =>
      match lagSeconds r, to_float (fig5Get r "MBH_Msun") with
      | some ts, some m => if 0 < m then some (ts / (RG_OVER_C_S * m)) else none
      | _, _ => none

/-- Embedding of the fig5a series collection (lines 112-135): the plotted
`(a_eq, tau_rg)` pairs of the rows whose parsed `a_eq` and lag are both
non-NaN; all other rows are excluded. -/
def fig5aSeries (rows : List Fig5Row) : List (ℚ × ℚ) :=
  rows.filterMap (fun r =>
    match to_float (fig5Get r "a_eq"), lag_to_tau_rg r with
    | some a, some t => some (a, t)
    | _, _ => none)

/-! ## Theorems -/

/-! ### Claim C3: the boolean-flag formatter -/

/-- C3 counterexample: the claim says every input other than the six listed
strings passes through unchanged, but `as_check` returns the stripped,
lowercased form: on input `"Maybe"` it returns `"maybe"`, not `"Maybe"`. -/
theorem C3_as_check_counterexample :
    as_check "Maybe" = "maybe" ∧ as_check "Maybe" ≠ "Maybe" := by
  constructor
  · decide
  · decide

/-- C3 amended: after stripping and lowercasing, `as_check` maps the truthy
strings `1, true, t, yes, y, ✓, check, ok` to a check mark, the falsy
strings `0, false, f, no, n, ×, x` to the blank string, and any other input
to its stripped lowercased form. -/
theorem C3_as_check_amended :
    (∀ s : String, pyLower (pyStrip s) ∈ asCheckTrue → as_check s = "✓") ∧
    (∀ s : String, pyLower (pyStrip s) ∈ asCheckFalse → as_check s = "") ∧
    (∀ s : String, pyLower (pyStrip s) ∉ asCheckTrue →
      pyLower (pyStrip s) ∉ asCheckFalse → as_check s = pyLower (pyStrip s)) := by
  have hdisj : ∀ t ∈ asCheckFalse, t ∉ asCheckTrue := by decide
  refine ⟨fun s hs => ?_, fun s hs => ?_, fun s h1 h2 => ?_⟩
  · simp only [as_check]
    rw [if_pos hs]
  · simp only [as_check]
    rw [if_neg (hdisj _ hs), if_pos hs]
  · simp only [as_check]
    rw [if_neg h1, if_neg h2]

/-- C3 witness: the amended theorem applied at the concrete inputs
`" TRUE "`, `"0"` and `"Maybe"`. -/
theorem C3_as_check_amended_witness :
    as_check " TRUE " = "✓" ∧ as_check "0" = "" ∧
      as_check "Maybe" = pyLower (pyStrip "Maybe") :=
  ⟨C3_as_check_amended.1 " TRUE " (by decide),
   C3_as_check_amended.2.1 "0" (by decide),
   C3_as_check_amended.2.2 "Maybe" (by decide) (by decide)⟩

/-! ### Claim C8: fig6 column selection -/

theorem list_contains_iff (l : List String) (a : String) : l.contains a = true ↔ a ∈ l := by
  simp

/-- C8 counterexample: for a CSV with a header but no data rows (so the
loaded `rows` list is empty), fig6 renders the column `z` (indeed every
recognized column) although no CSV row contains it, contradicting the claim
that exactly the columns present in the rows are rendered. -/
theorem C8_fig6_columns_counterexample :
    "z" ∈ (fig6Cols []).map Prod.fst ∧ ∀ r ∈ ([] : List (List String)), "z" ∉ r := by
  constructor
  · decide
  · intro r hr
    cases hr

/-- C8 amended: when the CSV has at least one data row, the rendered columns
are exactly the recognized columns occurring in some row, listed in the
documented preferred order (a sublist of the preferred key order); a CSV
with no data rows instead renders all recognized columns. -/
theorem C8_fig6_columns_amended :
    ∀ rows : List (List String), rows ≠ [] →
      List.Sublist ((fig6Cols rows).map Prod.fst) (fig6Preferred.map Prod.fst) ∧
      (∀ k : String, k ∈ (fig6Cols rows).map Prod.fst ↔
        (k ∈ fig6Preferred.map Prod.fst ∧ ∃ r ∈ rows, k ∈ r)) := by
  intro rows hne
  have hemp : rows.isEmpty = false := by
    simpa [List.isEmpty_iff] using hne
  constructor
  · exact (List.filter_sublist _).map _
  · intro k
    simp only [fig6Cols, fig6PresentKeys, hemp, Bool.false_eq_true, if_false,
      List.mem_map, List.mem_filter, List.any_eq_true, list_contains_iff]
    constructor
    · rintro ⟨⟨k0, lab⟩, ⟨hmem, hpres⟩, hk⟩
      rcases hpres with ⟨⟨k1, lab1⟩, ⟨hmem1, r, hr, hkr⟩, hk1⟩
      subst hk
      have hkk : k1 = k0 := hk1
      subst hkk
      exact ⟨⟨_, hmem, rfl⟩, r, hr, hkr⟩
    · rintro ⟨⟨⟨k0, lab⟩, hmem, hk⟩, r, hr, hkr⟩
      subst hk
      exact ⟨⟨k0, lab⟩, ⟨hmem, ⟨k0, lab⟩, ⟨hmem, r, hr, hkr⟩, rfl⟩, rfl⟩

/-- C8 witness: the amended theorem applied to the one-row key set
`[["name"]]`. -/
theorem C8_fig6_columns_amended_witness :
    List.Sublist ((fig6Cols [["name"]]).map Prod.fst) (fig6Preferred.map Prod.fst) ∧
      (∀ k : String, k ∈ (fig6Cols [["name"]]).map Prod.fst ↔
        (k ∈ fig6Preferred.map Prod.fst ∧ ∃ r ∈ [["name"]], k ∈ r)) :=
  C8_fig6_columns_amended [["name"]] (by simp)

/-! ### Claims C5 and C10: `load_eps_list` -/

/-- Characterisation of the error case of the `load_eps_list` collection
loop: an uncaught `ValueError` occurs exactly when some row has a non-empty
`epsilon_coup` cell that does not parse. -/
theorem collectEps_error_iff (rows : List CsvRow) :
    collectEps rows = Except.error () ↔
      ∃ r ∈ rows, rowGetStr r "epsilon_coup" ≠ "" ∧
        pyFloat (rowGetStr r "epsilon_coup") = none := by
  induction rows with
  | nil => simp [collectEps]
  | cons r rest ih =>
      simp only [collectEps]
      by_cases h : rowGetStr r "epsilon_coup" = ""
      · rw [if_pos h]
        simp [ih, h]
      · rw [if_neg h]
        cases hp : pyFloat (rowGetStr r "epsilon_coup") with
        | none => simp [h, hp]
        | some q =>
            cases hc : collectEps rest with
            | error e =>
                cases e
                simp [Except.map, hc, ih.mp hc, h, hp]
            | ok l =>
                have : ¬ ∃ x ∈ rest, rowGetStr x "epsilon_coup" ≠ "" ∧
                    pyFloat (rowGetStr x "epsilon_coup") = none := by
                  rw [← ih, hc]
                  simp
                simp [Except.map, hc, h, hp, this]

/-- When every non-empty `epsilon_coup` cell parses, the collection loop
returns exactly the parsed values of the non-empty cells, in row order. -/
theorem collectEps_ok_of (rows : List CsvRow)
    (h : ∀ r ∈ rows, rowGetStr r "epsilon_coup" ≠ "" →
      pyFloat (rowGetStr r "epsilon_coup") ≠ none) :
    collectEps rows = Except.ok (rows.filterMap fun r =>
      if rowGetStr r "epsilon_coup" = "" then none
      else pyFloat (rowGetStr r "epsilon_coup")) := by
  induction rows with
  | nil => simp [collectEps]
  | cons r rest ih =>
      have hrest : ∀ x ∈ rest, rowGetStr x "epsilon_coup" ≠ "" →
          pyFloat (rowGetStr x "epsilon_coup") ≠ none :=
        fun x hx => h x (List.mem_cons_of_mem _ hx)
      simp only [collectEps, List.filterMap_cons]
      by_cases hs : rowGetStr r "epsilon_coup" = ""
      · rw [if_pos hs, if_pos hs]
        exact ih hrest
      · rw [if_neg hs, if_neg hs]
        cases hp : pyFloat (rowGetStr r "epsilon_coup") with
        | none => exact absurd hp (h r (List.mem_cons_self _ _) hs)
        | some q => simp [ih hrest, Except.map]

/-- C5 counterexample: a CSV whose `epsilon_coup` column contains the
non-empty unparseable value `"abc"` makes `load_eps_list` raise an uncaught
`ValueError` (modelled as `Except.error ()`), contradicting the claimed
graceful degradation. -/
theorem C5_load_eps_list_counterexample :
    load_eps_list (some ⟨some ["epsilon_coup"], [[("epsilon_coup", some "abc")]]⟩) =
      Except.error () := by
  rfl

/-- C5 amended: `load_eps_list` degrades to the hard-coded defaults on a
missing file, a missing header, or a missing `epsilon_coup` column, and
skips empty cells, but it raises an uncaught `ValueError` whenever some row
has a non-empty `epsilon_coup` cell that does not parse as a float. -/
theorem C5_load_eps_list_amended :
    load_eps_list none = Except.ok eps_defaults ∧
    (∀ rows, load_eps_list (some ⟨none, rows⟩) = Except.ok eps_defaults) ∧
    (∀ fns rows, "epsilon_coup" ∉ fns →
      load_eps_list (some ⟨some fns, rows⟩) = Except.ok eps_defaults) ∧
    (∀ (f : CsvFile) (fns : List String), f.fieldnames = some fns → "epsilon_coup" ∈ fns →
      (∃ r ∈ f.rows, rowGetStr r "epsilon_coup" ≠ "" ∧
        pyFloat (rowGetStr r "epsilon_coup") = none) →
      load_eps_list (some f) = Except.error ()) := by
  refine ⟨rfl, fun rows => rfl, fun fns rows hm => ?_, fun f fns hf hm hbad => ?_⟩
  · simp only [load_eps_list]
    by_cases h0 : fns = []
    · rw [if_pos h0]
    · rw [if_neg h0, if_neg hm]
  · obtain ⟨fnames, rows⟩ := f
    have hf2 : fnames = some fns := hf
    subst hf2
    simp only [load_eps_list]
    have h0 : fns ≠ [] := by
      rintro rfl
      cases hm
    rw [if_neg h0, if_pos hm, (collectEps_error_iff rows).mpr hbad]
    rfl

/-- C5 witness: the amended theorem applied to a CSV without the
`epsilon_coup` column and to a CSV with the unparseable cell `"x1"`. -/
theorem C5_load_eps_list_amended_witness :
    load_eps_list (some ⟨some ["other"], [[("epsilon_coup", some "abc")]]⟩) =
        Except.ok eps_defaults ∧
      load_eps_list (some ⟨some ["epsilon_coup"], [[("epsilon_coup", some "x1")]]⟩) =
        Except.error () :=
  ⟨C5_load_eps_list_amended.2.2.1 ["other"] _ (by decide),
   C5_load_eps_list_amended.2.2.2
     ⟨some ["epsilon_coup"], [[("epsilon_coup", some "x1")]]⟩ ["epsilon_coup"]
     rfl (by decide)
     ⟨[("epsilon_coup", some "x1")], by decide, by decide, by decide⟩⟩

/-- C10: every list returned by `load_eps_list` is sorted ascending, and the
returned value is invariant under any permutation of the CSV's data rows. -/
theorem C10_load_eps_list_sorted_perm_invariant :
    (∀ (file : Option CsvFile) (l : List ℚ),
      load_eps_list file = Except.ok l → l.Sorted (· ≤ ·)) ∧
    (∀ (fns : Option (List String)) (rows1 rows2 : List CsvRow), rows1.Perm rows2 →
      load_eps_list (some ⟨fns, rows1⟩) = load_eps_list (some ⟨fns, rows2⟩)) := by
  have hdef : eps_defaults.Sorted (· ≤ ·) := by
    norm_num [eps_defaults, List.sorted_cons]
  have hsortmerge : ∀ l : List ℚ, (pySorted l).Sorted (· ≤ ·) := by
    intro l
    exact List.sorted_mergeSort' l
  constructor
  · intro file l h
    rcases file with _ | ⟨fns, rows⟩
    · simp [load_eps_list] at h
      exact h ▸ hdef
    · rcases fns with _ | fns
      · simp [load_eps_list] at h
        exact h ▸ hdef
      · simp only [load_eps_list] at h
        by_cases h0 : fns = []
        · rw [if_pos h0] at h
          simp at h
          exact h ▸ hdef
        · rw [if_neg h0] at h
          by_cases hm : "epsilon_coup" ∈ fns
          · rw [if_pos hm] at h
            cases hc : collectEps rows with
            | error e =>
                rw [hc] at h
                cases e
                simp [Except.map] at h
            | ok vals =>
                rw [hc] at h
                simp [Except.map] at h
                by_cases hv : vals = []
                · rw [if_pos hv] at h
                  exact h ▸ hdef
                · rw [if_neg hv] at h
                  exact h ▸ hsortmerge vals
          · rw [if_neg hm] at h
            simp at h
            exact h ▸ hdef
  · intro fns rows1 rows2 hperm
    rcases fns with _ | fns
    · rfl
    · simp only [load_eps_list]
      by_cases h0 : fns = []
      · rw [if_pos h0, if_pos h0]
      · rw [if_neg h0, if_neg h0]
        by_cases hm : "epsilon_coup" ∈ fns
        · rw [if_pos hm, if_pos hm]
          by_cases hbad : ∃ r ∈ rows1, rowGetStr r "epsilon_coup" ≠ "" ∧
              pyFloat (rowGetStr r "epsilon_coup") = none
          · obtain ⟨r, hr, hb⟩ := hbad
            have hbad2 : ∃ r ∈ rows2, rowGetStr r "epsilon_coup" ≠ "" ∧
                pyFloat (rowGetStr r "epsilon_coup") = none :=
              ⟨r, hperm.mem_iff.mp hr, hb⟩
            rw [(collectEps_error_iff rows1).mpr ⟨r, hr, hb⟩,
              (collectEps_error_iff rows2).mpr hbad2]
          · have hgood1 : ∀ r ∈ rows1, rowGetStr r "epsilon_coup" ≠ "" →
                pyFloat (rowGetStr r "epsilon_coup") ≠ none := by
              intro r hr hne hnone
              exact hbad ⟨r, hr, hne, hnone⟩
            have hgood2 : ∀ r ∈ rows2, rowGetStr r "epsilon_coup" ≠ "" →
                pyFloat (rowGetStr r "epsilon_coup") ≠ none := by
              intro r hr hne hnone
              exact hbad ⟨r, hperm.mem_iff.mpr hr, hne, hnone⟩
            rw [collectEps_ok_of rows1 hgood1, collectEps_ok_of rows2 hgood2]
            have hpf : (rows1.filterMap fun r =>
                if rowGetStr r "epsilon_coup" = "" then none
                else pyFloat (rowGetStr r "epsilon_coup")).Perm
                (rows2.filterMap fun r =>
                if rowGetStr r "epsilon_coup" = "" then none
                else pyFloat (rowGetStr r "epsilon_coup")) := hperm.filterMap _
            simp only [Except.map]
            by_cases hv : (rows1.filterMap fun r =>
                if rowGetStr r "epsilon_coup" = "" then none
                else pyFloat (rowGetStr r "epsilon_coup")) = []
            · have hv2 := (hv ▸ hpf).symm.eq_nil
              rw [hv, hv2]
            · have hv2 : (rows2.filterMap fun r =>
                  if rowGetStr r "epsilon_coup" = "" then none
                  else pyFloat (rowGetStr r "epsilon_coup")) ≠ [] := by
                intro h2
                exact hv (h2 ▸ hpf.symm).symm.eq_nil
              rw [if_neg hv, if_neg hv2]
              have hss : pySorted (rows1.filterMap fun r =>
                  if rowGetStr r "epsilon_coup" = "" then none
                  else pyFloat (rowGetStr r "epsilon_coup")) =
                  pySorted (rows2.filterMap fun r =>
                  if rowGetStr r "epsilon_coup" = "" then none
                  else pyFloat (rowGetStr r "epsilon_coup")) := by
                refine List.eq_of_perm_of_sorted ?_ (hsortmerge _) (hsortmerge _)
                exact ((List.mergeSort_perm _ _).trans hpf).trans
                  (List.mergeSort_perm _ _).symm
              rw [hss]
        · rw [if_neg hm, if_neg hm]

/-- C10 witness: the theorem applied to the missing-file fallback and to a
concrete two-row CSV and its row-swapped permutation. -/
theorem C10_load_eps_list_witness :
    eps_defaults.Sorted (· ≤ ·) ∧
      load_eps_list (some ⟨some ["epsilon_coup"],
        [[("epsilon_coup", some "0.05")], [("epsilon_coup", some "0.01")]]⟩) =
      load_eps_list (some ⟨some ["epsilon_coup"],
        [[("epsilon_coup", some "0.01")], [("epsilon_coup", some "0.05")]]⟩) :=
  ⟨C10_load_eps_list_sorted_perm_invariant.1 none eps_defaults rfl,
   C10_load_eps_list_sorted_perm_invariant.2 (some ["epsilon_coup"]) _ _
     (List.Perm.swap _ _ _)⟩

/-! ### Generic facts about the root-bracketing helpers -/

theorem rsgn_of_pos {x : ℝ} (h : 0 < x) : rsgn x = 1 := by
  unfold rsgn
  rw [if_neg (by linarith), if_neg (by linarith)]

theorem rsgn_of_neg {x : ℝ} (h : x < 0) : rsgn x = -1 := by
  unfold rsgn
  rw [if_pos h]

theorem rsgn_of_zero {x : ℝ} (h : x = 0) : rsgn x = 0 := by
  unfold rsgn
  rw [if_neg (by linarith), if_pos h]

theorem le_zero_of_rsgn_ne_of_pos {y1 y2 : ℝ} (h : rsgn y1 ≠ rsgn y2) (h1 : 0 < y1) :
    y2 ≤ 0 := by
  by_contra h2
  push_neg at h2
  exact h (by rw [rsgn_of_pos h1, rsgn_of_pos h2])

theorem ge_zero_of_rsgn_ne_of_neg {y1 y2 : ℝ} (h : rsgn y1 ≠ rsgn y2) (h1 : y1 < 0) :
    0 ≤ y2 := by
  by_contra h2
  push_neg at h2
  exact h (by rw [rsgn_of_neg h1, rsgn_of_neg h2])

/-- When the scan starting at counter `n` reports a crossing `m`, the pair at
offset `m - n` is a genuine adjacent sign change, in bounds, and no earlier
adjacent pair changes sign. -/
theorem firstCrossAux_spec :
    ∀ (l : List ℝ) (n m : ℕ), firstCrossAux l n = some m →
      n ≤ m ∧ (m - n) + 1 < l.length ∧
      rsgn (l.getD (m - n) 0) ≠ rsgn (l.getD (m - n + 1) 0) ∧
      ∀ j < m - n, rsgn (l.getD j 0) = rsgn (l.getD (j + 1) 0) := by
  intro l
  induction l with
  | nil => intro n m h; simp [firstCrossAux] at h
  | cons a rest ih =>
      intro n m h
      cases rest with
      | nil => simp [firstCrossAux] at h
      | cons b rest2 =>
          simp only [firstCrossAux] at h
          by_cases hs : rsgn a = rsgn b
          · rw [if_pos hs] at h
            obtain ⟨h1, h2, h3, h4⟩ := ih (n + 1) m h
            have hmn : m - n = (m - (n + 1)) + 1 := by omega
            refine ⟨by omega, ?_, ?_, ?_⟩
            · simp only [List.length_cons] at h2 ⊢
              omega
            · rw [hmn]
              simpa using h3
            · intro j hj
              rcases j with _ | j2
              · simpa using hs
              · have hj2 : j2 < m - (n + 1) := by omega
                simpa using h4 j2 hj2
          · rw [if_neg hs] at h
            injection h with h
            subst h
            refine ⟨le_refl n, ?_, ?_, ?_⟩
            · simp only [Nat.sub_self, List.length_cons]
              omega
            · simpa [Nat.sub_self] using hs
            · intro j hj
              omega

/-- When the scan reports no crossing, all adjacent signs agree. -/
theorem firstCrossAux_none_spec :
    ∀ (l : List ℝ) (n : ℕ), firstCrossAux l n = none →
      ∀ j, j + 1 < l.length → rsgn (l.getD j 0) = rsgn (l.getD (j + 1) 0) := by
  intro l
  induction l with
  | nil => intro n h j hj; simp at hj
  | cons a rest ih =>
      intro n h j hj
      cases rest with
      | nil => simp at hj
      | cons b rest2 =>
          simp only [firstCrossAux] at h
          by_cases hs : rsgn a = rsgn b
          · rw [if_pos hs] at h
            rcases j with _ | j2
            · simpa using hs
            · have hj2 : j2 + 1 < (b :: rest2).length := by
                simp only [List.length_cons] at hj ⊢
                omega
              simpa using ih (n + 1) h j2 hj2
          · rw [if_neg hs] at h
            cases h

theorem argminIdx_lt : ∀ (l : List ℝ), l ≠ [] → argminIdx l < l.length := by
  intro l
  induction l with
  | nil => intro h; exact absurd rfl h
  | cons a rest ih =>
      intro h
      cases rest with
      | nil => simp [argminIdx]
      | cons b rest2 =>
          simp only [argminIdx, List.length_cons]
          split_ifs
          · omega
          · have := ih (List.cons_ne_nil b rest2)
            simp only [List.length_cons] at this
            omega

/-- The value at the `argminIdx` position is minimal. -/
theorem argminIdx_le :
    ∀ (l : List ℝ) (k : ℕ), k < l.length → l.getD (argminIdx l) 0 ≤ l.getD k 0 := by
  intro l
  induction l with
  | nil => intro k hk; simp at hk
  | cons a rest ih =>
      intro k hk
      cases rest with
      | nil =>
          have hk0 : k = 0 := by
            simp only [List.length_cons, List.length_nil] at hk
            omega
          subst hk0
          simp [argminIdx]
      | cons b rest2 =>
          simp only [argminIdx]
          split_ifs with hle
          · rcases k with _ | k2
            · simp
            · have hk2 : k2 < (b :: rest2).length := by
                simp only [List.length_cons] at hk ⊢
                omega
              calc (a :: b :: rest2).getD 0 0 = a := rfl
                _ ≤ (b :: rest2).getD (argminIdx (b :: rest2)) 0 := hle
                _ ≤ (b :: rest2).getD k2 0 := ih k2 hk2
                _ = (a :: b :: rest2).getD (k2 + 1) 0 := rfl
          · push_neg at hle
            rcases k with _ | k2
            · have h0 : argminIdx (b :: rest2) < (b :: rest2).length :=
                argminIdx_lt _ (List.cons_ne_nil b rest2)
              calc (a :: b :: rest2).getD (argminIdx (b :: rest2) + 1) 0
                  = (b :: rest2).getD (argminIdx (b :: rest2)) 0 := rfl
                _ ≤ a := le_of_lt hle
                _ = (a :: b :: rest2).getD 0 0 := rfl
            · have hk2 : k2 < (b :: rest2).length := by
                simp only [List.length_cons] at hk ⊢
                omega
              calc (a :: b :: rest2).getD (argminIdx (b :: rest2) + 1) 0
                  = (b :: rest2).getD (argminIdx (b :: rest2)) 0 := rfl
                _ ≤ (b :: rest2).getD k2 0 := ih k2 hk2
                _ = (a :: b :: rest2).getD (k2 + 1) 0 := rfl

/-- Linear interpolation between a bracketing pair (adjacent sampled values
of differing sign) stays inside the bracketing interval. -/
theorem interpZero_mem {x1 x2 y1 y2 : ℝ} (hx : x1 ≤ x2) (hs : rsgn y1 ≠ rsgn y2) :
    interpZero x1 x2 y1 y2 ∈ Set.Icc x1 x2 := by
  have hne : y2 - y1 ≠ 0 := by
    intro h
    exact hs (by rw [show y1 = y2 by linarith])
  have key : ∃ θ : ℝ, 0 ≤ θ ∧ θ ≤ 1 ∧ interpZero x1 x2 y1 y2 = x1 + θ * (x2 - x1) := by
    refine ⟨-y1 / (y2 - y1), ?_, ?_, ?_⟩
    · rcases lt_trichotomy y1 0 with h1 | h1 | h1
      · have h2 : 0 ≤ y2 := ge_zero_of_rsgn_ne_of_neg hs h1
        apply div_nonneg (by linarith) (by linarith)
      · simp [h1]
      · have h2 : y2 ≤ 0 := le_zero_of_rsgn_ne_of_pos hs h1
        rw [show -y1 / (y2 - y1) = y1 / (y1 - y2) by
          rw [show y2 - y1 = -(y1 - y2) by ring, neg_div_neg_eq]]
        apply div_nonneg (by linarith) (by linarith)
    · rcases lt_trichotomy y1 0 with h1 | h1 | h1
      · have h2 : 0 ≤ y2 := ge_zero_of_rsgn_ne_of_neg hs h1
        rw [div_le_one (by linarith)]
        linarith
      · simp [h1]
      · have h2 : y2 ≤ 0 := le_zero_of_rsgn_ne_of_pos hs h1
        rw [show -y1 / (y2 - y1) = y1 / (y1 - y2) by
          rw [show y2 - y1 = -(y1 - y2) by ring, neg_div_neg_eq]]
        rw [div_le_one (by linarith)]
        linarith
    · unfold interpZero
      field_simp
      ring
  obtain ⟨t, ht0, ht1, heq⟩ := key
  rw [heq]
  constructor
  · nlinarith
  · nlinarith

theorem tbSamples_length (eps : ℝ) (grid : List ℝ) :
    (tbSamples eps grid).length = grid.length := by
  simp [tbSamples]

theorem chain_le_getD {grid : List ℝ} (hsort : grid.Chain' (· ≤ ·)) {i : ℕ}
    (h : i + 1 < grid.length) : grid.getD i 0 ≤ grid.getD (i + 1) 0 := by
  have h2 := List.chain'_iff_get.mp hsort i (by omega)
  rw [List.getD_eq_getElem _ _ (by omega), List.getD_eq_getElem _ _ h]
  simpa [List.get_eq_getElem] using h2

/-- Sqrt form of the real power `x ** 1.5` on nonnegative arguments. -/
theorem rpow_three_halves {x : ℝ} (hx : 0 ≤ x) : x ^ (1.5 : ℝ) = x * Real.sqrt x := by
  rcases eq_or_lt_of_le hx with h | h
  · rw [← h]
    rw [Real.zero_rpow (by norm_num)]
    simp
  · rw [show (1.5 : ℝ) = 1 + 1 / 2 by norm_num, Real.rpow_add h, Real.rpow_one,
      ← Real.sqrt_eq_rpow]

/-- Sqrt form of the toy torque model for `a ≤ 1`. -/
theorem torque_balance_sqrt {a : ℝ} (eps : ℝ) (ha : a ≤ 1) :
    torque_balance a eps = (1 - a) * Real.sqrt (1 - a) * (1 - 0.1 * eps) - eps * a ^ 2 := by
  unfold torque_balance
  rw [rpow_three_halves (by linarith)]

/-! ### Claim C2: the interpolated crossing lies in the bracketing interval -/

/-- C2: on every sorted sampled grid on which the torque samples change sign
exactly once, namely between the consecutive grid points of index `i` and
`i+1`, both `find_equilibrium_spin` and `find_a_eq` return a value inside
the closed bracketing interval. -/
theorem C2_bracketing_interval (eps : ℝ) (grid : List ℝ) (i : ℕ)
    (hlen : i + 1 < grid.length) (hsort : grid.Chain' (· ≤ ·))
    (hcross : ∀ j, j + 1 < grid.length →
      (rsgn ((tbSamples eps grid).getD j 0) ≠ rsgn ((tbSamples eps grid).getD (j + 1) 0) ↔
        j = i)) :
    find_equilibrium_spin eps grid ∈ Set.Icc (grid.getD i 0) (grid.getD (i + 1) 0) ∧
      find_a_eq eps grid ∈ Set.Icc (grid.getD i 0) (grid.getD (i + 1) 0) := by
  have hyslen := tbSamples_length eps grid
  have hcross_i : rsgn ((tbSamples eps grid).getD i 0) ≠
      rsgn ((tbSamples eps grid).getD (i + 1) 0) := (hcross i hlen).mpr rfl
  have hfc : firstCross (tbSamples eps grid) = some i := by
    cases h : firstCross (tbSamples eps grid) with
    | none => exact absurd (firstCrossAux_none_spec _ 0 h i (by omega)) hcross_i
    | some i2 =>
        obtain ⟨-, h2, h3, -⟩ := firstCrossAux_spec _ 0 i2 h
        simp only [Nat.sub_zero] at h2 h3
        have hii : i2 = i := (hcross i2 (by omega)).mp h3
        rw [hii]
  have hx12 := chain_le_getD hsort hlen
  have hres : find_a_eq eps grid =
      interpZero (grid.getD i 0) (grid.getD (i + 1) 0)
        ((tbSamples eps grid).getD i 0) ((tbSamples eps grid).getD (i + 1) 0) := by
    unfold find_a_eq bracketRoot
    rw [hfc]
  have hmem := interpZero_mem hx12 hcross_i
  rw [← hres] at hmem
  exact ⟨hmem, hmem⟩

theorem tb_zero_one_pos : 0 < torque_balance 0 1 := by
  rw [torque_balance_sqrt 1 (by norm_num)]
  norm_num [Real.sqrt_one]

theorem tb_threequarter_one_neg : torque_balance (3 / 4) 1 < 0 := by
  rw [torque_balance_sqrt 1 (by norm_num)]
  have hs : Real.sqrt (1 - 3 / 4) = 1 / 2 := by
    rw [show (1 : ℝ) - 3 / 4 = (1 / 2) ^ 2 by norm_num, Real.sqrt_sq (by norm_num)]
  rw [hs]
  norm_num

/-- C2 witness: the theorem applied to `eps = 1` on the two-point grid
`[0, 3/4]`, where the sampled torque goes from positive to negative. -/
theorem C2_bracketing_interval_witness :
    find_equilibrium_spin 1 [0, 3 / 4] ∈
        Set.Icc (([0, 3 / 4] : List ℝ).getD 0 0) (([0, 3 / 4] : List ℝ).getD 1 0) ∧
      find_a_eq 1 [0, 3 / 4] ∈
        Set.Icc (([0, 3 / 4] : List ℝ).getD 0 0) (([0, 3 / 4] : List ℝ).getD 1 0) := by
  refine C2_bracketing_interval 1 [0, 3 / 4] 0 (by norm_num) ?_ ?_
  · simp [List.chain'_cons, List.chain'_singleton]
    norm_num
  · intro j hj
    have hj0 : j = 0 := by
      simp only [List.length_cons, List.length_nil] at hj
      omega
    subst hj0
    have hv : tbSamples 1 [0, 3 / 4] = [torque_balance 0 1, torque_balance (3 / 4) 1] := rfl
    rw [hv]
    constructor
    · intro _
      rfl
    · intro _
      show rsgn (torque_balance 0 1) ≠ rsgn (torque_balance (3 / 4) 1)
      rw [rsgn_of_pos tb_zero_one_pos, rsgn_of_neg tb_threequarter_one_neg]
      norm_num

/-! ### Claim C6: no sign change falls back to the argmin grid point -/

/-- C6: when the torque samples change sign nowhere on the grid, both
`find_equilibrium_spin` and `find_a_eq` return a grid point whose sampled
torque has minimal absolute value over the whole grid. -/
theorem C6_no_sign_change_argmin (eps : ℝ) (grid : List ℝ) (hne : grid ≠ [])
    (hnocross : ∀ j, j + 1 < grid.length →
      rsgn ((tbSamples eps grid).getD j 0) = rsgn ((tbSamples eps grid).getD (j + 1) 0)) :
    ∃ m, m < grid.length ∧
      find_equilibrium_spin eps grid = grid.getD m 0 ∧
      find_a_eq eps grid = grid.getD m 0 ∧
      ∀ k, k < grid.length →
        |(tbSamples eps grid).getD m 0| ≤ |(tbSamples eps grid).getD k 0| := by
  have hyslen := tbSamples_length eps grid
  have habslen : ((tbSamples eps grid).map (fun v => |v|)).length = grid.length := by
    simp [tbSamples]
  have habsget : ∀ j, j < grid.length →
      ((tbSamples eps grid).map (fun v => |v|)).getD j 0 =
        |(tbSamples eps grid).getD j 0| := by
    intro j hj
    rw [List.getD_eq_getElem _ _ (by omega), List.getD_eq_getElem _ _ (by omega),
      List.getElem_map]
  have hfc : firstCross (tbSamples eps grid) = none := by
    cases h : firstCross (tbSamples eps grid) with
    | some i2 =>
        obtain ⟨-, h2, h3, -⟩ := firstCrossAux_spec _ 0 i2 h
        simp only [Nat.sub_zero] at h2 h3
        exact absurd (hnocross i2 (by omega)) h3
    | none => rfl
  have hmapne : (tbSamples eps grid).map (fun v => |v|) ≠ [] := by
    intro h0
    have := congrArg List.length h0
    simp only [habslen, List.length_nil] at this
    exact hne (List.eq_nil_of_length_eq_zero this)
  have hmlt : argminIdx ((tbSamples eps grid).map (fun v => |v|)) < grid.length := by
    have := argminIdx_lt _ hmapne
    omega
  have hres : find_a_eq eps grid =
      grid.getD (argminIdx ((tbSamples eps grid).map (fun v => |v|))) 0 := by
    unfold find_a_eq bracketRoot
    rw [hfc]
  refine ⟨argminIdx ((tbSamples eps grid).map (fun v => |v|)), hmlt, hres, hres, ?_⟩
  intro k hk
  have := argminIdx_le ((tbSamples eps grid).map (fun v => |v|)) k (by omega)
  rw [habsget _ hmlt, habsget _ hk] at this
  exact this

theorem tb_zero_zero_pos : 0 < torque_balance 0 0 := by
  rw [torque_balance_sqrt 0 (by norm_num)]
  norm_num [Real.sqrt_one]

theorem tb_threequarter_zero_pos : 0 < torque_balance (3 / 4) 0 := by
  rw [torque_balance_sqrt 0 (by norm_num)]
  have hs : Real.sqrt (1 - 3 / 4) = 1 / 2 := by
    rw [show (1 : ℝ) - 3 / 4 = (1 / 2) ^ 2 by norm_num, Real.sqrt_sq (by norm_num)]
  rw [hs]
  norm_num

/-- C6 witness: the theorem applied to `eps = 0` on the two-point grid
`[0, 3/4]`, where both sampled torque values are positive. -/
theorem C6_no_sign_change_argmin_witness :
    ∃ m, m < ([0, 3 / 4] : List ℝ).length ∧
      find_equilibrium_spin 0 [0, 3 / 4] = ([0, 3 / 4] : List ℝ).getD m 0 ∧
      find_a_eq 0 [0, 3 / 4] = ([0, 3 / 4] : List ℝ).getD m 0 ∧
      ∀ k, k < ([0, 3 / 4] : List ℝ).length →
        |(tbSamples 0 [0, 3 / 4]).getD m 0| ≤ |(tbSamples 0 [0, 3 / 4]).getD k 0| := by
  refine C6_no_sign_change_argmin 0 [0, 3 / 4] (by simp) ?_
  intro j hj
  have hj0 : j = 0 := by
    simp only [List.length_cons, List.length_nil] at hj
    omega
  subst hj0
  have hv : tbSamples 0 [0, 3 / 4] = [torque_balance 0 0, torque_balance (3 / 4) 0] := rfl
  rw [hv]
  show rsgn (torque_balance 0 0) = rsgn (torque_balance (3 / 4) 0)
  rw [rsgn_of_pos tb_zero_zero_pos, rsgn_of_pos tb_threequarter_zero_pos]

/-! ### Claim C7: clamping invariant of the Euler loop -/

/-- Range of the clamp applied after each Euler step. -/
theorem clamp01_mem (x : ℝ) : 0 ≤ clamp01 x ∧ clamp01 x ≤ 0.9999 := by
  unfold clamp01
  split_ifs with h1 h2
  · norm_num
  · norm_num
  · constructor <;> linarith

/-- C7: the state is clamped after each integration step, so the value
entering every Euler step after the first lies in the clamp range
`[0, 0.9999]` and hence in `[0, 1]`, for every derivative function,
coupling, start value and step size. -/
theorem C7_euler_state_clamped :
    ∀ (f : ℝ → ℝ → ℝ) (eps a0 dt : ℝ) (n : ℕ), 1 ≤ n →
      eulerState f eps a0 dt n ∈ Set.Icc (0 : ℝ) 0.9999 ∧
      eulerState f eps a0 dt n ∈ Set.Icc (0 : ℝ) 1 := by
  intro f eps a0 dt n hn
  match n, hn with
  | n + 1, _ =>
      have h := clamp01_mem (eulerNext f eps dt (eulerState f eps a0 dt n))
      exact ⟨⟨h.1, h.2⟩, ⟨h.1, h.2.trans (by norm_num)⟩⟩

/-- C7 witness: the theorem applied after one step from the out-of-range
start value `5` with a zero derivative. -/
theorem C7_euler_state_clamped_witness :
    eulerState (fun _ _ => 0) 0 5 1 1 ∈ Set.Icc (0 : ℝ) 0.9999 ∧
      eulerState (fun _ _ => 0) 0 5 1 1 ∈ Set.Icc (0 : ℝ) 1 :=
  C7_euler_state_clamped _ _ _ _ 1 (le_refl 1)

/-! ### Claim C9: NaN sentinel and exclusion from the fig5 series -/

/-- C9: a parse failure in `to_float` yields the NaN sentinel (here `none`),
`to_float` of a missing cell is NaN, and a row whose parsed `a_eq` or lag is
NaN contributes nothing to the plotted fig5a series: deleting such a row
leaves the series unchanged. -/
theorem C9_fig5_nan_excluded :
    (∀ s : String, pyFloat s = none → to_float (some s) = none) ∧
    to_float none = none ∧
    (∀ (pre post : List Fig5Row) (r : Fig5Row),
      to_float (fig5Get r "a_eq") = none ∨ lag_to_tau_rg r = none →
      fig5aSeries (pre ++ r :: post) = fig5aSeries (pre ++ post)) := by
  refine ⟨fun s hs => hs, rfl, fun pre post r hr => ?_⟩
  have hnone : (match to_float (fig5Get r "a_eq"), lag_to_tau_rg r with
      | some a, some t => some ((a, t) : ℚ × ℚ)
      | _, _ => none) = none := by
    rcases hr with h | h
    · rw [h]
    · rw [h]
      cases to_float (fig5Get r "a_eq") <;> rfl
  simp only [fig5aSeries, List.filterMap_append, List.filterMap_cons, hnone]

/-- C9 witness: the theorem applied to the unparseable cell `"abc"` and to a
concrete pair of rows, the first of which has an unparseable `a_eq`. -/
theorem C9_fig5_nan_excluded_witness :
    to_float (some "abc") = none ∧
      fig5aSeries [[("a_eq", "bad")], [("a_eq", "0.9"), ("lag_rg", "30")]] =
        fig5aSeries [[("a_eq", "0.9"), ("lag_rg", "30")]] :=
  ⟨C9_fig5_nan_excluded.1 "abc" (by decide),
   C9_fig5_nan_excluded.2.2 [] [[("a_eq", "0.9"), ("lag_rg", "30")]]
     [("a_eq", "bad")] (Or.inl (by decide))⟩

/-! ### Claims C1 and C4: the bounded Euler integration loop -/

theorem timeToEqAux_none_iff (f : ℝ → ℝ → ℝ) (eps aeq dt tol a0 : ℝ) :
    ∀ (fuel n : ℕ),
      (timeToEqAux f eps aeq dt tol fuel (eulerState f eps a0 dt n) ((n : ℝ) * dt) = none ↔
        ∀ k, k < fuel → ¬ |eulerNext f eps dt (eulerState f eps a0 dt (n + k)) - aeq| < tol) := by
  intro fuel
  induction fuel with
  | zero =>
      intro n
      simp [timeToEqAux]
  | succ fuel ih =>
      intro n
      simp only [timeToEqAux]
      by_cases hstop : |eulerNext f eps dt (eulerState f eps a0 dt n) - aeq| < tol
      · rw [if_pos hstop]
        constructor
        · intro h
          cases h
        · intro h
          exact absurd hstop (by simpa using h 0 (by omega))
      · rw [if_neg hstop]
        have h1 : clamp01 (eulerNext f eps dt (eulerState f eps a0 dt n)) =
            eulerState f eps a0 dt (n + 1) := rfl
        have h2 : (n : ℝ) * dt + dt = ((n + 1 : ℕ) : ℝ) * dt := by
          push_cast
          ring
        rw [h1, h2, ih (n + 1)]
        constructor
        · intro h k hk
          rcases k with _ | k2
          · simpa using hstop
          · have hx : n + (k2 + 1) = n + 1 + k2 := by omega
            rw [hx]
            exact h k2 (by omega)
        · intro h k hk
          have hx : n + 1 + k = n + (k + 1) := by omega
          rw [hx]
          exact h (k + 1) (by omega)

theorem timeToEqAux_some (f : ℝ → ℝ → ℝ) (eps aeq dt tol a0 : ℝ) :
    ∀ (fuel n j : ℕ), j < fuel →
      |eulerNext f eps dt (eulerState f eps a0 dt (n + j)) - aeq| < tol →
      (∀ k, k < j → ¬ |eulerNext f eps dt (eulerState f eps a0 dt (n + k)) - aeq| < tol) →
      timeToEqAux f eps aeq dt tol fuel (eulerState f eps a0 dt n) ((n : ℝ) * dt) =
        some (((n + j + 1 : ℕ) : ℝ) * dt) := by
  intro fuel
  induction fuel with
  | zero =>
      intro n j hj hstop hbefore
      exact absurd hj (Nat.not_lt_zero j)
  | succ fuel ih =>
      intro n j hj hstop hbefore
      simp only [timeToEqAux]
      rcases j with _ | j2
      · rw [if_pos (by simpa using hstop)]
        congr 1
        push_cast
        ring
      · have hn0 : ¬ |eulerNext f eps dt (eulerState f eps a0 dt n) - aeq| < tol := by
          simpa using hbefore 0 (by omega)
        rw [if_neg hn0]
        have h1 : clamp01 (eulerNext f eps dt (eulerState f eps a0 dt n)) =
            eulerState f eps a0 dt (n + 1) := rfl
        have h2 : (n : ℝ) * dt + dt = ((n + 1 : ℕ) : ℝ) * dt := by
          push_cast
          ring
        have hstop2 : |eulerNext f eps dt (eulerState f eps a0 dt (n + 1 + j2)) - aeq| < tol := by
          have hx : n + 1 + j2 = n + (j2 + 1) := by omega
          rw [hx]
          exact hstop
        have hbefore2 : ∀ k, k < j2 →
            ¬ |eulerNext f eps dt (eulerState f eps a0 dt (n + 1 + k)) - aeq| < tol := by
          intro k hk
          have hx : n + 1 + k = n + (k + 1) := by omega
          rw [hx]
          exact hbefore (k + 1) (by omega)
        have hcast : n + 1 + j2 + 1 = n + (j2 + 1) + 1 := by omega
        rw [h1, h2, ih (n + 1) j2 (by omega) hstop2 hbefore2, hcast]

/-- C4: the time component of `time_to_equilibrium` is NaN (modelled as
`none`) iff all `max_steps` iterations pass without the post-update value
coming within `tol` of the precomputed target `find_a_eq eps`; otherwise it
is the accumulated time `(n+1)*dt` of the first step `n` whose post-update
value satisfies the tolerance test. -/
theorem C4_time_to_equilibrium_nan_iff (eps a0 : ℝ) (f : ℝ → ℝ → ℝ) (dt : ℝ) (ms : ℕ) (tol : ℝ) :
    ((time_to_equilibrium eps a0 f dt ms tol).1 = none ↔
      ∀ n, n < ms →
        ¬ |eulerNext f eps dt (eulerState f eps a0 dt n) - find_a_eq eps fig4Grid| < tol) ∧
    (∀ n, n < ms →
      |eulerNext f eps dt (eulerState f eps a0 dt n) - find_a_eq eps fig4Grid| < tol →
      (∀ k, k < n →
        ¬ |eulerNext f eps dt (eulerState f eps a0 dt k) - find_a_eq eps fig4Grid| < tol) →
      (time_to_equilibrium eps a0 f dt ms tol).1 = some (((n + 1 : ℕ) : ℝ) * dt)) := by
  have hfst : (time_to_equilibrium eps a0 f dt ms tol).1 =
      timeToEqAux f eps (find_a_eq eps fig4Grid) dt tol ms
        (eulerState f eps a0 dt 0) (((0 : ℕ) : ℝ) * dt) := by
    have h1 : eulerState f eps a0 dt 0 = a0 := rfl
    have h2 : ((0 : ℕ) : ℝ) * dt = 0 := by norm_num
    rw [h1, h2]
    rfl
  constructor
  · rw [hfst, timeToEqAux_none_iff]
    constructor
    · intro h n hn
      simpa using h n hn
    · intro h n hn
      simpa using h n hn
  · intro n hn hstop hbefore
    have hcast : 0 + n + 1 = n + 1 := by omega
    rw [hfst, timeToEqAux_some f eps _ dt tol a0 ms 0 n hn (by simpa using hstop)
      (by intro k hk; simpa using hbefore k hk), hcast]

theorem le_of_sq_le_sq_nonneg {c t : ℝ} (ht0 : 0 ≤ t) (_hc : 0 ≤ c) (h : c ^ 2 ≤ t ^ 2) :
    c ≤ t := by
  nlinarith [sq_nonneg (t - c)]

theorem cubic_diff_lower {s t : ℝ} (_ht0 : 0 ≤ t) (hts : t ≤ s) (ht_lb : 0.0223 ≤ t) :
    0.033 * (s ^ 2 - t ^ 2) ≤ 0.9919 * (s ^ 3 - t ^ 3) := by
  have hA : (3 / 4) * (s + t) ^ 2 ≤ s ^ 2 + s * t + t ^ 2 := by
    nlinarith [sq_nonneg (s - t)]
  have hB : (0.0446 : ℝ) ≤ s + t := by linarith
  have hC : (s + t) * 0.0446 ≤ (s + t) * (s + t) :=
    mul_le_mul_of_nonneg_left hB (by linarith)
  have hbr : 0 ≤ 0.9919 * (s ^ 2 + s * t + t ^ 2) - 0.033 * (s + t) := by
    nlinarith [hA, hC]
  have hmain : 0 ≤ (s - t) * (0.9919 * (s ^ 2 + s * t + t ^ 2) - 0.033 * (s + t)) :=
    mul_nonneg (by linarith) hbr
  nlinarith [hmain]

theorem cubic_diff_upper {s t : ℝ} (ht0 : 0 ≤ t) (hts : t ≤ s) (hs_ub : s ≤ 0.3874) :
    s ^ 3 - t ^ 3 ≤ 0.7748 * (s ^ 2 - t ^ 2) := by
  have hst : 0 ≤ (s - t) * (s * t) :=
    mul_nonneg (by linarith) (mul_nonneg (by linarith) ht0)
  have h1 : s ^ 3 - t ^ 3 ≤ (s ^ 2 - t ^ 2) * (s + t) := by nlinarith [hst]
  have hsq : 0 ≤ s ^ 2 - t ^ 2 := by nlinarith
  have h2 : (s ^ 2 - t ^ 2) * (s + t) ≤ (s ^ 2 - t ^ 2) * 0.7748 :=
    mul_le_mul_of_nonneg_left (by linarith) hsq
  linarith

theorem eps_sq_nonneg {eps x y : ℝ} (he0 : 0 ≤ eps) (hx : 0 ≤ x) (hxy : x ≤ y) :
    0 ≤ eps * (y ^ 2 - x ^ 2) := by
  apply mul_nonneg he0
  nlinarith

theorem eps_sq_bound {eps x y : ℝ} (_he0 : 0 ≤ eps) (he1 : eps ≤ 0.081)
    (hx : 0.85 ≤ x) (hxy : x ≤ y) (hy : y ≤ 0.9995) :
    eps * (y ^ 2 - x ^ 2) ≤ 0.162 * (y - x) := by
  have h1 : eps * (y + x) ≤ 0.081 * (y + x) :=
    mul_le_mul_of_nonneg_right he1 (by linarith)
  have h2 : (0.081 : ℝ) * (y + x) ≤ 0.081 * 1.999 :=
    mul_le_mul_of_nonneg_left (by linarith) (by norm_num)
  have hepsyx : eps * (y + x) ≤ 0.162 := by linarith
  have hyx0 : 0 ≤ y - x := by linarith
  have hprod := mul_le_mul_of_nonneg_right hepsyx hyx0
  nlinarith [hprod]

/-- Two-point bound on the toy torque model: on `[0.85, 0.9995]` with
coupling `eps` in `[0, 0.081]`, the function decreases at a rate between
`0.033` and `0.94` per unit of spin. -/
theorem tb_two_point {eps x y : ℝ} (he0 : 0 ≤ eps) (he1 : eps ≤ 0.081)
    (hx : 0.85 ≤ x) (hxy : x ≤ y) (hy : y ≤ 0.9995) :
    0.033 * (y - x) ≤ torque_balance x eps - torque_balance y eps ∧
    torque_balance x eps - torque_balance y eps ≤ 0.94 * (y - x) := by
  have hs0 : 0 ≤ Real.sqrt (1 - x) := Real.sqrt_nonneg _
  have ht0 : 0 ≤ Real.sqrt (1 - y) := Real.sqrt_nonneg _
  set s := Real.sqrt (1 - x) with hs_def
  set t := Real.sqrt (1 - y) with ht_def
  have hs2 : s ^ 2 = 1 - x := Real.sq_sqrt (by linarith)
  have ht2 : t ^ 2 = 1 - y := Real.sq_sqrt (by linarith)
  have hts : t ≤ s := Real.sqrt_le_sqrt (by linarith)
  have ht_lb : 0.0223 ≤ t := le_of_sq_le_sq_nonneg ht0 (by norm_num) (by rw [ht2]; nlinarith)
  have hs_ub : s ≤ 0.3874 :=
    le_of_sq_le_sq_nonneg (by norm_num) hs0 (by rw [hs2]; nlinarith)
  have hyx : y - x = s ^ 2 - t ^ 2 := by
    rw [hs2, ht2]
    ring
  have hcube : 0 ≤ s ^ 3 - t ^ 3 := by
    have := pow_le_pow_left₀ ht0 hts 3
    linarith
  have hk_lb : (0.9919 : ℝ) ≤ 1 - 0.1 * eps := by linarith
  have hk_ub : 1 - 0.1 * eps ≤ 1 := by linarith
  have htbx : torque_balance x eps = s ^ 2 * s * (1 - 0.1 * eps) - eps * x ^ 2 := by
    rw [torque_balance_sqrt eps (by linarith : x ≤ (1 : ℝ)), ← hs_def, ← hs2]
  have htby : torque_balance y eps = t ^ 2 * t * (1 - 0.1 * eps) - eps * y ^ 2 := by
    rw [torque_balance_sqrt eps (by linarith : y ≤ (1 : ℝ)), ← ht_def, ← ht2]
  have hrhs : s ^ 2 * s * (1 - 0.1 * eps) - eps * x ^ 2 -
      (t ^ 2 * t * (1 - 0.1 * eps) - eps * y ^ 2) =
      (1 - 0.1 * eps) * (s ^ 3 - t ^ 3) + eps * (y ^ 2 - x ^ 2) := by ring
  have hsqnn := eps_sq_nonneg he0 (by linarith : (0 : ℝ) ≤ x) hxy
  have hsqub := eps_sq_bound he0 he1 hx hxy hy
  constructor
  · have hmono := cubic_diff_lower ht0 hts ht_lb
    have hkc : 0.9919 * (s ^ 3 - t ^ 3) ≤ (1 - 0.1 * eps) * (s ^ 3 - t ^ 3) :=
      mul_le_mul_of_nonneg_right hk_lb hcube
    rw [htbx, htby, hrhs]
    linarith
  · have hup := cubic_diff_upper ht0 hts hs_ub
    have hkc : (1 - 0.1 * eps) * (s ^ 3 - t ^ 3) ≤ 1 * (s ^ 3 - t ^ 3) :=
      mul_le_mul_of_nonneg_right hk_ub hcube
    rw [htbx, htby, hrhs]
    linarith

theorem pos_of_rsgn_eq_one {x : ℝ} (h : rsgn x = 1) : 0 < x := by
  unfold rsgn at h
  split_ifs at h with h1 h2
  · norm_num at h
  · norm_num at h
  · push_neg at h1
    exact lt_of_le_of_ne h1 (Ne.symm h2)

theorem eq_zero_of_rsgn_eq_zero {x : ℝ} (h : rsgn x = 0) : x = 0 := by
  unfold rsgn at h
  split_ifs at h with h1 h2
  · norm_num at h
  · exact h2
  · norm_num at h

theorem rsgn_cases (x : ℝ) : rsgn x = 1 ∨ rsgn x = 0 ∨ rsgn x = -1 := by
  unfold rsgn
  split_ifs <;> simp

theorem tb_nonneg_of_le_root {eps astar z : ℝ} (he0 : 0 ≤ eps) (he1 : eps ≤ 0.081)
    (hroot : torque_balance astar eps = 0) (hs : astar ≤ 0.9995)
    (hz1 : 0.85 ≤ z) (hz2 : z ≤ astar) : 0 ≤ torque_balance z eps := by
  have := (tb_two_point he0 he1 hz1 hz2 hs).1
  rw [hroot] at this
  nlinarith

theorem tb_pos_of_lt_root {eps astar z : ℝ} (he0 : 0 ≤ eps) (he1 : eps ≤ 0.081)
    (hroot : torque_balance astar eps = 0) (hs : astar ≤ 0.9995)
    (hz1 : 0.85 ≤ z) (hz2 : z < astar) : 0 < torque_balance z eps := by
  have := (tb_two_point he0 he1 hz1 hz2.le hs).1
  rw [hroot] at this
  nlinarith

theorem tb_nonpos_of_root_le {eps astar z : ℝ} (he0 : 0 ≤ eps) (he1 : eps ≤ 0.081)
    (hroot : torque_balance astar eps = 0) (hs : 0.85 ≤ astar)
    (hz1 : astar ≤ z) (hz2 : z ≤ 0.9995) : torque_balance z eps ≤ 0 := by
  have := (tb_two_point he0 he1 hs hz1 hz2).1
  rw [hroot] at this
  nlinarith

theorem tb_neg_of_root_lt {eps astar z : ℝ} (he0 : 0 ≤ eps) (he1 : eps ≤ 0.081)
    (hroot : torque_balance astar eps = 0) (hs : 0.85 ≤ astar)
    (hz1 : astar < z) (hz2 : z ≤ 0.9995) : torque_balance z eps < 0 := by
  have := (tb_two_point he0 he1 hs hz1.le hz2).1
  rw [hroot] at this
  nlinarith

theorem tb_ub_of_le_root {eps astar z : ℝ} (he0 : 0 ≤ eps) (he1 : eps ≤ 0.081)
    (hroot : torque_balance astar eps = 0) (hs : astar ≤ 0.9995)
    (hz1 : 0.85 ≤ z) (hz2 : z ≤ astar) :
    torque_balance z eps ≤ 0.94 * (astar - z) := by
  have := (tb_two_point he0 he1 hz1 hz2 hs).2
  rw [hroot] at this
  linarith

theorem tb_lb_of_root_le {eps astar z : ℝ} (he0 : 0 ≤ eps) (he1 : eps ≤ 0.081)
    (hroot : torque_balance astar eps = 0) (hs : 0.85 ≤ astar)
    (hz1 : astar ≤ z) (hz2 : z ≤ 0.9995) :
    -(0.94 * (z - astar)) ≤ torque_balance z eps := by
  have := (tb_two_point he0 he1 hs hz1 hz2).2
  rw [hroot] at this
  linarith

/-- A root of the toy torque model inside the grid bounds forces the
coupling into `(0, 0.081]`. -/
theorem eps_bounds_of_root {eps astar : ℝ} (ha1 : 0.85 ≤ astar) (ha2 : astar ≤ 0.9995)
    (hroot : torque_balance astar eps = 0) : 0 < eps ∧ eps ≤ 0.081 := by
  have hs0 : 0 ≤ Real.sqrt (1 - astar) := Real.sqrt_nonneg _
  set s := Real.sqrt (1 - astar) with hs_def
  have hs2 : s ^ 2 = 1 - astar := Real.sq_sqrt (by linarith)
  have hs_lb : 0.0223 ≤ s := le_of_sq_le_sq_nonneg hs0 (by norm_num) (by rw [hs2]; nlinarith)
  have hs_ub : s ≤ 0.3874 := le_of_sq_le_sq_nonneg (by norm_num) hs0 (by rw [hs2]; nlinarith)
  have hr : s ^ 2 * s * (1 - 0.1 * eps) - eps * astar ^ 2 = 0 := by
    have h := hroot
    rw [torque_balance_sqrt eps (by linarith : astar ≤ (1 : ℝ))] at h
    rw [← hs_def, ← hs2] at h
    exact h
  have heq2 : eps * (astar ^ 2 + 0.1 * s ^ 3) = s ^ 3 := by linear_combination -hr
  have hs3_lb : (0.0223 : ℝ) ^ 3 ≤ s ^ 3 := pow_le_pow_left₀ (by norm_num) hs_lb 3
  have hs3_ub : s ^ 3 ≤ (0.3874 : ℝ) ^ 3 := pow_le_pow_left₀ hs0 hs_ub 3
  have ha2_lb : (0.7225 : ℝ) ≤ astar ^ 2 := by nlinarith
  have hb_lb : (0.7225 : ℝ) ≤ astar ^ 2 + 0.1 * s ^ 3 := by nlinarith
  have hepos : 0 < eps := by
    by_contra hneg
    push_neg at hneg
    have hprod : 0 ≤ (-eps) * (astar ^ 2 + 0.1 * s ^ 3) :=
      mul_nonneg (by linarith) (by linarith)
    nlinarith [heq2, hs3_lb, hprod]
  refine ⟨hepos, ?_⟩
  have hmul : eps * 0.7225 ≤ eps * (astar ^ 2 + 0.1 * s ^ 3) :=
    mul_le_mul_of_nonneg_left hb_lb hepos.le
  nlinarith [heq2, hs3_ub, hmul]

theorem linspace_length (a b : ℝ) (n : ℕ) : (linspace a b n).length = n := by
  unfold linspace
  rw [List.length_map, List.length_range]

theorem linspace_getD (a b : ℝ) (n i : ℕ) (h : i < n) :
    (linspace a b n).getD i 0 = a + i * ((b - a) / ((n : ℝ) - 1)) := by
  rw [List.getD_eq_getElem _ _ (by rw [linspace_length]; exact h)]
  simp only [linspace, List.getElem_map, List.getElem_range]

theorem fig4Grid_length : fig4Grid.length = 4000 := by
  unfold fig4Grid
  rw [linspace_length]

theorem fig4Grid_getD {i : ℕ} (h : i < 4000) :
    fig4Grid.getD i 0 = 0.85 + i * (0.1495 / 3999) := by
  unfold fig4Grid
  rw [linspace_getD _ _ _ _ h]
  norm_num

theorem fig4Grid_getD_lb {i : ℕ} (h : i < 4000) : 0.85 ≤ fig4Grid.getD i 0 := by
  rw [fig4Grid_getD h]
  have : (0 : ℝ) ≤ i * (0.1495 / 3999) := by positivity
  linarith

theorem fig4Grid_getD_ub {i : ℕ} (h : i < 4000) : fig4Grid.getD i 0 ≤ 0.9995 := by
  rw [fig4Grid_getD h]
  have hi : (i : ℝ) ≤ 3999 := by
    have : i ≤ 3999 := by omega
    exact_mod_cast this
  have : (i : ℝ) * (0.1495 / 3999) ≤ 3999 * (0.1495 / 3999) :=
    mul_le_mul_of_nonneg_right hi (by norm_num)
  have h3999 : (3999 : ℝ) * (0.1495 / 3999) = 0.1495 := by norm_num
  linarith

theorem fig4Grid_step {i : ℕ} (h : i + 1 < 4000) :
    fig4Grid.getD (i + 1) 0 = fig4Grid.getD i 0 + 0.1495 / 3999 := by
  rw [fig4Grid_getD h, fig4Grid_getD (by omega)]
  push_cast
  ring

theorem fig4Grid_first : fig4Grid.getD 0 0 = 0.85 := by
  rw [fig4Grid_getD (by norm_num)]
  norm_num

theorem fig4Grid_last : fig4Grid.getD 3999 0 = 0.9995 := by
  rw [fig4Grid_getD (by norm_num)]
  norm_num

theorem neg_of_rsgn_eq_neg_one {x : ℝ} (h : rsgn x = -1) : x < 0 := by
  unfold rsgn at h
  split_ifs at h with h1 h2
  · exact h1
  · norm_num at h
  · norm_num at h

theorem tbSamples_getD {eps : ℝ} {grid : List ℝ} {j : ℕ} (hj : j < grid.length) :
    (tbSamples eps grid).getD j 0 = torque_balance (grid.getD j 0) eps := by
  rw [List.getD_eq_getElem _ _ (by rw [tbSamples_length]; exact hj),
    List.getD_eq_getElem _ _ hj]
  simp only [tbSamples, List.getElem_map]

theorem rsgn_eq_head {l : List ℝ} :
    ∀ i, (∀ j < i, rsgn (l.getD j 0) = rsgn (l.getD (j + 1) 0)) →
      rsgn (l.getD i 0) = rsgn (l.getD 0 0) := by
  intro i
  induction i with
  | zero => intro _; rfl
  | succ i2 ih =>
      intro h
      rw [← h i2 (by omega)]
      exact ih (fun j hj => h j (by omega))

/-- On the default 4000-point grid, `find_a_eq` lands within one grid
spacing of any root of the torque model lying inside the grid bounds. -/
theorem find_a_eq_near_root {eps astar : ℝ} (ha1 : 0.85 ≤ astar) (ha2 : astar ≤ 0.9995)
    (he0 : 0 ≤ eps) (he1 : eps ≤ 0.081) (hroot : torque_balance astar eps = 0) :
    |find_a_eq eps fig4Grid - astar| ≤ 0.1495 / 3999 := by
  have hlen := fig4Grid_length
  have hylen := tbSamples_length eps fig4Grid
  have hy0 : 0 ≤ (tbSamples eps fig4Grid).getD 0 0 := by
    rw [tbSamples_getD (by omega), fig4Grid_first]
    exact tb_nonneg_of_le_root he0 he1 hroot ha2 (le_refl _) ha1
  have hylast : (tbSamples eps fig4Grid).getD 3999 0 ≤ 0 := by
    rw [tbSamples_getD (by omega), fig4Grid_last]
    exact tb_nonpos_of_root_le he0 he1 hroot ha1 ha2 (le_refl _)
  have hdrop : 0 < (tbSamples eps fig4Grid).getD 0 0 -
      (tbSamples eps fig4Grid).getD 3999 0 ∨ True := Or.inr trivial
  obtain ⟨i, hfc⟩ : ∃ i, firstCross (tbSamples eps fig4Grid) = some i := by
    cases h : firstCross (tbSamples eps fig4Grid) with
    | some i => exact ⟨i, rfl⟩
    | none =>
        exfalso
        have hall := firstCrossAux_none_spec _ 0 h
        have hq : rsgn ((tbSamples eps fig4Grid).getD 3999 0) =
            rsgn ((tbSamples eps fig4Grid).getD 0 0) := by
          apply rsgn_eq_head
          intro j hj
          exact hall j (by omega)
        rcases rsgn_cases ((tbSamples eps fig4Grid).getD 0 0) with hs | hs | hs
        · have := pos_of_rsgn_eq_one (hq.trans hs)
          linarith
        · have h0 := eq_zero_of_rsgn_eq_zero hs
          have hL := eq_zero_of_rsgn_eq_zero (hq.trans hs)
          have hstep := (tb_two_point he0 he1 (le_refl (0.85 : ℝ))
            (by norm_num : (0.85 : ℝ) ≤ 0.9995) (le_refl (0.9995 : ℝ))).1
          rw [tbSamples_getD (by omega), fig4Grid_first] at h0
          rw [tbSamples_getD (by omega), fig4Grid_last] at hL
          rw [h0, hL] at hstep
          norm_num at hstep
        · have := neg_of_rsgn_eq_neg_one hs
          linarith
  obtain ⟨-, hilen, hne, hbefore⟩ := firstCrossAux_spec _ 0 i hfc
  simp only [Nat.sub_zero] at hilen hne hbefore
  have hi4000 : i + 1 < 4000 := by omega
  have hgi_lb := fig4Grid_getD_lb (show i < 4000 by omega)
  have hgi1_ub := fig4Grid_getD_ub hi4000
  have hstep := fig4Grid_step hi4000
  have hgle : fig4Grid.getD i 0 ≤ fig4Grid.getD (i + 1) 0 := by
    rw [hstep]
    norm_num
  have hyi := @tbSamples_getD eps fig4Grid i (show i < fig4Grid.length by omega)
  have hyi1 := @tbSamples_getD eps fig4Grid (i + 1) (show i + 1 < fig4Grid.length by omega)
  have hsign_i : rsgn ((tbSamples eps fig4Grid).getD i 0) =
      rsgn ((tbSamples eps fig4Grid).getD 0 0) := rsgn_eq_head i hbefore
  have hastar_mem : fig4Grid.getD i 0 ≤ astar ∧ astar ≤ fig4Grid.getD (i + 1) 0 := by
    rcases rsgn_cases ((tbSamples eps fig4Grid).getD i 0) with hs | hs | hs
    · have hyipos := pos_of_rsgn_eq_one hs
      constructor
      · by_contra hcon
        push_neg at hcon
        have := tb_nonpos_of_root_le he0 he1 hroot ha1 hcon.le
          (fig4Grid_getD_ub (show i < 4000 by omega))
        rw [hyi] at hyipos
        linarith
      · by_contra hcon
        push_neg at hcon
        have := tb_pos_of_lt_root he0 he1 hroot ha2
          (fig4Grid_getD_lb hi4000) hcon
        have hyi1le := le_zero_of_rsgn_ne_of_pos hne hyipos
        rw [hyi1] at hyi1le
        linarith
    · have hyi0 := eq_zero_of_rsgn_eq_zero hs
      rw [hyi] at hyi0
      have heq : fig4Grid.getD i 0 = astar := by
        by_contra hcon
        rcases lt_or_gt_of_ne hcon with hlt | hgt
        · have := tb_pos_of_lt_root he0 he1 hroot ha2 hgi_lb hlt
          linarith
        · have := tb_neg_of_root_lt he0 he1 hroot ha1 hgt
            (fig4Grid_getD_ub (show i < 4000 by omega))
          linarith
      constructor
      · rw [heq]
      · rw [← heq]
        exact hgle
    · exfalso
      rw [hsign_i] at hs
      rcases rsgn_cases ((tbSamples eps fig4Grid).getD 0 0) with h2 | h2 | h2
      · rw [h2] at hs
        norm_num at hs
      · rw [h2] at hs
        norm_num at hs
      · have := neg_of_rsgn_eq_neg_one h2
        linarith
  have hres : find_a_eq eps fig4Grid =
      interpZero (fig4Grid.getD i 0) (fig4Grid.getD (i + 1) 0)
        ((tbSamples eps fig4Grid).getD i 0) ((tbSamples eps fig4Grid).getD (i + 1) 0) := by
    unfold find_a_eq bracketRoot
    rw [hfc]
  have hmem := interpZero_mem hgle hne
  rw [← hres] at hmem
  obtain ⟨hm1, hm2⟩ := hmem
  rw [abs_le]
  constructor
  · rw [hstep] at hastar_mem
    linarith [hastar_mem.1, hastar_mem.2]
  · rw [hstep] at hm2
    linarith [hastar_mem.1]

theorem tb_lb_of_le_root {eps astar z : ℝ} (he0 : 0 ≤ eps) (he1 : eps ≤ 0.081)
    (hroot : torque_balance astar eps = 0) (hs : astar ≤ 0.9995)
    (hz1 : 0.85 ≤ z) (hz2 : z ≤ astar) :
    0.033 * (astar - z) ≤ torque_balance z eps := by
  have := (tb_two_point he0 he1 hz1 hz2 hs).1
  rw [hroot] at this
  linarith

theorem tb_ub_of_root_le {eps astar z : ℝ} (he0 : 0 ≤ eps) (he1 : eps ≤ 0.081)
    (hroot : torque_balance astar eps = 0) (hs : 0.85 ≤ astar)
    (hz1 : astar ≤ z) (hz2 : z ≤ 0.9995) :
    torque_balance z eps ≤ -(0.033 * (z - astar)) := by
  have := (tb_two_point he0 he1 hs hz1 hz2).1
  rw [hroot] at this
  linarith

theorem euler_up_bounds {eps astar : ℝ} (he0 : 0 ≤ eps) (he1 : eps ≤ 0.081)
    (hroot : torque_balance astar eps = 0) (ha1 : 0.86 ≤ astar) (ha2 : astar ≤ 0.9995) :
    ∀ n, (0.86 ≤ eulerState torque_balance eps 0.86 0.5 n ∧
        eulerState torque_balance eps 0.86 0.5 n ≤ astar) ∧
      eulerState torque_balance eps 0.86 0.5 (n + 1) =
        eulerState torque_balance eps 0.86 0.5 n +
          torque_balance (eulerState torque_balance eps 0.86 0.5 n) eps * 0.5 := by
  have hstep : ∀ a : ℝ, 0.86 ≤ a → a ≤ astar →
      clamp01 (a + torque_balance a eps * 0.5) = a + torque_balance a eps * 0.5 ∧
      a ≤ a + torque_balance a eps * 0.5 ∧ a + torque_balance a eps * 0.5 ≤ astar := by
    intro a h1 h2
    have htbnn := tb_nonneg_of_le_root he0 he1 hroot ha2 (by linarith) h2
    have htbub := tb_ub_of_le_root he0 he1 hroot ha2 (by linarith) h2
    refine ⟨?_, by linarith, by linarith⟩
    unfold clamp01
    rw [if_neg (by linarith), if_neg (by linarith)]
  intro n
  induction n with
  | zero =>
      refine ⟨⟨le_refl _, ha1⟩, ?_⟩
      have h0 : eulerState torque_balance eps 0.86 0.5 0 = 0.86 := rfl
      have := (hstep 0.86 (le_refl _) ha1).1
      rw [h0]
      exact this
  | succ n ih =>
      obtain ⟨⟨hb1, hb2⟩, heq⟩ := ih
      have hmem := hstep _ hb1 hb2
      constructor
      · rw [heq]
        exact ⟨by linarith [hmem.2.1], hmem.2.2⟩
      · have h2 := hstep (eulerState torque_balance eps 0.86 0.5 (n + 1))
          (by rw [heq]; linarith [hmem.2.1]) (by rw [heq]; exact hmem.2.2)
        exact h2.1

theorem euler_up_count {eps astar aeq : ℝ} (he0 : 0 ≤ eps) (he1 : eps ≤ 0.081)
    (hroot : torque_balance astar eps = 0) (ha1 : 0.86 ≤ astar) (ha2 : astar ≤ 0.9995)
    (hnear : |aeq - astar| ≤ 0.1495 / 3999) :
    ∀ n, n ≤ 200000 →
      (∀ k, k < n →
        ¬ |eulerNext torque_balance eps 0.5 (eulerState torque_balance eps 0.86 0.5 k) - aeq|
          < 1e-4) →
      0.86 + n * 0.000001 ≤ eulerState torque_balance eps 0.86 0.5 n := by
  have hbounds := euler_up_bounds he0 he1 hroot ha1 ha2
  have habs1 : astar ≤ aeq + 0.1495 / 3999 := by
    have h1 : astar - aeq ≤ |aeq - astar| := by
      rw [abs_sub_comm]
      exact le_abs_self _
    linarith
  have habs2 : aeq ≤ astar + 0.1495 / 3999 := by
    have h1 : aeq - astar ≤ |aeq - astar| := le_abs_self _
    linarith
  intro n
  induction n with
  | zero =>
      intro _ _
      have h0 : eulerState torque_balance eps 0.86 0.5 0 = 0.86 := rfl
      rw [h0]
      norm_num
  | succ n ih =>
      intro hn hstops
      have ihh := ih (by omega) (fun k hk => hstops k (by omega))
      obtain ⟨⟨hb1, hb2⟩, heq⟩ := hbounds n
      have hb2n : eulerState torque_balance eps 0.86 0.5 (n + 1) ≤ astar :=
        (hbounds (n + 1)).1.2
      have hmono : eulerState torque_balance eps 0.86 0.5 n ≤
          eulerState torque_balance eps 0.86 0.5 (n + 1) := by
        have := tb_nonneg_of_le_root he0 he1 hroot ha2 (by linarith) hb2
        rw [heq]
        linarith
      have hEN : eulerNext torque_balance eps 0.5 (eulerState torque_balance eps 0.86 0.5 n) =
          eulerState torque_balance eps 0.86 0.5 (n + 1) := by
        rw [heq]
        rfl
      have hns := hstops n (by omega)
      rw [hEN] at hns
      have hlow : eulerState torque_balance eps 0.86 0.5 (n + 1) ≤ aeq - 1e-4 := by
        rcases abs_cases (eulerState torque_balance eps 0.86 0.5 (n + 1) - aeq) with
          ⟨hab, _⟩ | ⟨hab, _⟩
        · exfalso
          apply hns
          rw [hab]
          have : eulerState torque_balance eps 0.86 0.5 (n + 1) - aeq ≤ 0.1495 / 3999 := by
            linarith
          have hx : (0.1495 : ℝ) / 3999 < 1e-4 := by norm_num
          linarith
        · push_neg at hns
          rw [hab] at hns
          linarith
      have hgap : 0.000062 ≤ astar - eulerState torque_balance eps 0.86 0.5 n := by
        have h1 : eulerState torque_balance eps 0.86 0.5 (n + 1) ≤ astar + 0.1495 / 3999 - 1e-4 := by
          linarith
        have hx : (1e-4 : ℝ) - 0.1495 / 3999 ≥ 0.000062 := by norm_num
        linarith
      have hprog := tb_lb_of_le_root he0 he1 hroot ha2 (by linarith) hb2
      have hstep : eulerState torque_balance eps 0.86 0.5 n + 0.000001 ≤
          eulerState torque_balance eps 0.86 0.5 (n + 1) := by
        rw [heq]
        linarith
      push_cast
      push_cast at ihh
      linarith

theorem euler_down_bounds {eps astar : ℝ} (he0 : 0 ≤ eps) (he1 : eps ≤ 0.081)
    (hroot : torque_balance astar eps = 0) (ha1 : 0.85 ≤ astar) (ha2 : astar ≤ 0.86) :
    ∀ n, (astar ≤ eulerState torque_balance eps 0.86 0.5 n ∧
        eulerState torque_balance eps 0.86 0.5 n ≤ 0.86) ∧
      eulerState torque_balance eps 0.86 0.5 (n + 1) =
        eulerState torque_balance eps 0.86 0.5 n +
          torque_balance (eulerState torque_balance eps 0.86 0.5 n) eps * 0.5 := by
  have hstep : ∀ a : ℝ, astar ≤ a → a ≤ 0.86 →
      clamp01 (a + torque_balance a eps * 0.5) = a + torque_balance a eps * 0.5 ∧
      astar ≤ a + torque_balance a eps * 0.5 ∧ a + torque_balance a eps * 0.5 ≤ a := by
    intro a h1 h2
    have htbnp := tb_nonpos_of_root_le he0 he1 hroot ha1 h1 (by linarith)
    have htblb := tb_lb_of_root_le he0 he1 hroot ha1 h1 (by linarith)
    refine ⟨?_, by linarith, by linarith⟩
    unfold clamp01
    rw [if_neg (by linarith), if_neg (by linarith)]
  intro n
  induction n with
  | zero =>
      have h0 : eulerState torque_balance eps 0.86 0.5 0 = 0.86 := rfl
      refine ⟨⟨by rw [h0]; linarith, by rw [h0]⟩, ?_⟩
      have := (hstep 0.86 (by linarith) (le_refl _)).1
      rw [h0]
      exact this
  | succ n ih =>
      obtain ⟨⟨hb1, hb2⟩, heq⟩ := ih
      have hmem := hstep _ hb1 hb2
      constructor
      · rw [heq]
        exact ⟨hmem.2.1, by linarith [hmem.2.2]⟩
      · have h2 := hstep (eulerState torque_balance eps 0.86 0.5 (n + 1))
          (by rw [heq]; exact hmem.2.1) (by rw [heq]; linarith [hmem.2.2])
        exact h2.1

theorem euler_down_count {eps astar aeq : ℝ} (he0 : 0 ≤ eps) (he1 : eps ≤ 0.081)
    (hroot : torque_balance astar eps = 0) (ha1 : 0.85 ≤ astar) (ha2 : astar ≤ 0.86)
    (hnear : |aeq - astar| ≤ 0.1495 / 3999) :
    ∀ n, n ≤ 200000 →
      (∀ k, k < n →
        ¬ |eulerNext torque_balance eps 0.5 (eulerState torque_balance eps 0.86 0.5 k) - aeq|
          < 1e-4) →
      eulerState torque_balance eps 0.86 0.5 n ≤ 0.86 - n * 0.000001 := by
  have hbounds := euler_down_bounds he0 he1 hroot ha1 ha2
  have habs1 : astar ≤ aeq + 0.1495 / 3999 := by
    have h1 : astar - aeq ≤ |aeq - astar| := by
      rw [abs_sub_comm]
      exact le_abs_self _
    linarith
  have habs2 : aeq ≤ astar + 0.1495 / 3999 := by
    have h1 : aeq - astar ≤ |aeq - astar| := le_abs_self _
    linarith
  intro n
  induction n with
  | zero =>
      intro _ _
      have h0 : eulerState torque_balance eps 0.86 0.5 0 = 0.86 := rfl
      rw [h0]
      norm_num
  | succ n ih =>
      intro hn hstops
      have ihh := ih (by omega) (fun k hk => hstops k (by omega))
      obtain ⟨⟨hb1, hb2⟩, heq⟩ := hbounds n
      have hb1n : astar ≤ eulerState torque_balance eps 0.86 0.5 (n + 1) :=
        (hbounds (n + 1)).1.1
      have hmono : eulerState torque_balance eps 0.86 0.5 (n + 1) ≤
          eulerState torque_balance eps 0.86 0.5 n := by
        have := tb_nonpos_of_root_le he0 he1 hroot ha1 hb1 (by linarith)
        rw [heq]
        linarith
      have hEN : eulerNext torque_balance eps 0.5 (eulerState torque_balance eps 0.86 0.5 n) =
          eulerState torque_balance eps 0.86 0.5 (n + 1) := by
        rw [heq]
        rfl
      have hns := hstops n (by omega)
      rw [hEN] at hns
      have hhigh : aeq + 1e-4 ≤ eulerState torque_balance eps 0.86 0.5 (n + 1) := by
        rcases abs_cases (eulerState torque_balance eps 0.86 0.5 (n + 1) - aeq) with
          ⟨hab, _⟩ | ⟨hab, _⟩
        · push_neg at hns
          rw [hab] at hns
          linarith
        · exfalso
          apply hns
          rw [hab]
          have h1 : aeq - eulerState torque_balance eps 0.86 0.5 (n + 1) ≤ 0.1495 / 3999 := by
            linarith
          have hx : (0.1495 : ℝ) / 3999 < 1e-4 := by norm_num
          linarith
      have hgap : 0.000062 ≤ eulerState torque_balance eps 0.86 0.5 n - astar := by
        have h1 : astar + 1e-4 - 0.1495 / 3999 ≤
            eulerState torque_balance eps 0.86 0.5 (n + 1) := by
          linarith
        have hx : (1e-4 : ℝ) - 0.1495 / 3999 ≥ 0.000062 := by norm_num
        linarith
      have hprog := tb_ub_of_root_le he0 he1 hroot ha1 hb1 (by linarith)
      have hstep : eulerState torque_balance eps 0.86 0.5 (n + 1) ≤
          eulerState torque_balance eps 0.86 0.5 n - 0.000001 := by
        rw [heq]
        linarith
      push_cast
      push_cast at ihh
      linarith

set_option maxRecDepth 8000 in
/-- C1: whenever the toy torque model has a fixed point inside the grid
bounds `[0.85, 0.9995]`, `time_to_equilibrium` with its default arguments
(`a0 = 0.86`, `da_dt = torque_balance`, `dt = 0.5`, `max_steps = 200000`,
`tol = 1e-4`) returns a finite (non-NaN) time, and the equilibrium value it
returns is exactly the output of the independent root-finder `find_a_eq`
(hence matches it within any stated tolerance). -/
theorem C1_time_to_equilibrium_converges (eps : ℝ)
    (hroot : ∃ a ∈ Set.Icc (0.85 : ℝ) 0.9995, torque_balance a eps = 0) :
    (time_to_equilibrium eps 0.86 torque_balance 0.5 200000 1e-4).1 ≠ none ∧
    (time_to_equilibrium eps 0.86 torque_balance 0.5 200000 1e-4).2 = find_a_eq eps fig4Grid := by
  obtain ⟨astar, hmem, hr⟩ := hroot
  obtain ⟨ha1, ha2⟩ := hmem
  obtain ⟨hep, heu⟩ := eps_bounds_of_root ha1 ha2 hr
  have hnear := find_a_eq_near_root ha1 ha2 hep.le heu hr
  have hsnd : (time_to_equilibrium eps 0.86 torque_balance 0.5 200000 1e-4).2 =
      find_a_eq eps fig4Grid := by
    unfold time_to_equilibrium
    rfl
  refine ⟨?_, hsnd⟩
  intro hnone
  have hfst : (time_to_equilibrium eps 0.86 torque_balance 0.5 200000 1e-4).1 =
      timeToEqAux torque_balance eps (find_a_eq eps fig4Grid) 0.5 1e-4 200000
        (eulerState torque_balance eps 0.86 0.5 0) (((0 : ℕ) : ℝ) * 0.5) := by
    have h1 : eulerState torque_balance eps 0.86 0.5 0 = 0.86 := rfl
    have h2 : ((0 : ℕ) : ℝ) * 0.5 = 0 := by norm_num
    rw [h1, h2]
    unfold time_to_equilibrium
    rfl
  rw [hfst] at hnone
  have hall := (timeToEqAux_none_iff torque_balance eps (find_a_eq eps fig4Grid)
    0.5 1e-4 0.86 200000 0).mp hnone
  rcases le_total 0.86 astar with hcase | hcase
  · have hcount := euler_up_count hep.le heu hr hcase ha2 hnear 200000 (le_refl _)
      (fun k hk => by simpa using hall k hk)
    have hub := (euler_up_bounds hep.le heu hr hcase ha2 200000).1.2
    push_cast at hcount
    linarith
  · have hcount := euler_down_count hep.le heu hr ha1 hcase hnear 200000 (le_refl _)
      (fun k hk => by simpa using hall k hk)
    have hlb := (euler_down_bounds hep.le heu hr ha1 hcase 200000).1.1
    push_cast at hcount
    linarith

theorem tb_root_exists_001 :
    ∃ a ∈ Set.Icc (0.85 : ℝ) 0.9995, torque_balance a 0.01 = 0 := by
  have h1cont : Continuous fun a : ℝ => 1 - a := continuous_const.sub continuous_id
  have hc2 : Continuous (fun a : ℝ =>
      (1 - a) * Real.sqrt (1 - a) * (1 - 0.1 * 0.01) - 0.01 * a ^ 2) :=
    ((h1cont.mul (Real.continuous_sqrt.comp h1cont)).mul continuous_const).sub
      (continuous_const.mul (continuous_pow 2))
  have hcont : ContinuousOn (fun a : ℝ => torque_balance a 0.01)
      (Set.Icc 0.85 0.9995) := by
    refine ContinuousOn.congr hc2.continuousOn ?_
    intro a ha
    exact torque_balance_sqrt 0.01 (le_trans ha.2 (by norm_num))
  have hsqhi : (0.38 : ℝ) ≤ Real.sqrt 0.15 := by
    apply le_of_sq_le_sq_nonneg (Real.sqrt_nonneg _) (by norm_num)
    rw [Real.sq_sqrt (by norm_num : (0 : ℝ) ≤ 0.15)]
    norm_num
  have hsqlo : Real.sqrt 0.0005 ≤ 0.0224 := by
    apply le_of_sq_le_sq_nonneg (by norm_num) (Real.sqrt_nonneg _)
    rw [Real.sq_sqrt (by norm_num : (0 : ℝ) ≤ 0.0005)]
    norm_num
  have hhi : 0 ≤ torque_balance 0.85 0.01 := by
    rw [torque_balance_sqrt 0.01 (by norm_num : (0.85 : ℝ) ≤ 1)]
    rw [show (1 : ℝ) - 0.85 = 0.15 by norm_num]
    have := Real.sqrt_nonneg (0.15 : ℝ)
    nlinarith [hsqhi]
  have hlo : torque_balance 0.9995 0.01 ≤ 0 := by
    rw [torque_balance_sqrt 0.01 (by norm_num : (0.9995 : ℝ) ≤ 1)]
    rw [show (1 : ℝ) - 0.9995 = 0.0005 by norm_num]
    have := Real.sqrt_nonneg (0.0005 : ℝ)
    nlinarith [hsqlo]
  have hsub := intermediate_value_Icc' (by norm_num : (0.85 : ℝ) ≤ 0.9995) hcont
  have h0mem : (0 : ℝ) ∈ Set.Icc (torque_balance 0.9995 0.01) (torque_balance 0.85 0.01) :=
    ⟨hlo, hhi⟩
  obtain ⟨a, hamem, ha0⟩ := hsub h0mem
  exact ⟨a, hamem, ha0⟩

/-- C1 witness: the theorem applied at `eps = 0.01`, whose fixed point
inside the grid bounds is produced by the intermediate value theorem. -/
theorem C1_time_to_equilibrium_converges_witness :
    (∃ a ∈ Set.Icc (0.85 : ℝ) 0.9995, torque_balance a 0.01 = 0) ∧
      (time_to_equilibrium 0.01 0.86 torque_balance 0.5 200000 1e-4).1 ≠ none ∧
      (time_to_equilibrium 0.01 0.86 torque_balance 0.5 200000 1e-4).2 =
        find_a_eq 0.01 fig4Grid :=
  ⟨tb_root_exists_001, C1_time_to_equilibrium_converges 0.01 tb_root_exists_001⟩

theorem firstCrossAux_none_of :
    ∀ (l : List ℝ) (n : ℕ), (∀ j, j < l.length → 0 < l.getD j 0) →
      firstCrossAux l n = none := by
  intro l
  induction l with
  | nil => intro n _; rfl
  | cons a rest ih =>
      intro n hpos
      cases rest with
      | nil => rfl
      | cons b rest2 =>
          have ha : 0 < a := hpos 0 (by simp)
          have hb : 0 < b := hpos 1 (by simp)
          simp only [firstCrossAux]
          rw [if_pos]
          · exact ih (n + 1) (fun j hj => hpos (j + 1) (by simpa using Nat.succ_lt_succ hj))
          · rw [rsgn_of_pos ha, rsgn_of_pos hb]

theorem argminIdx_eq_last {l : List ℝ} (hne : l ≠ [])
    (hdec : ∀ j k, j < k → k < l.length → l.getD k 0 < l.getD j 0) :
    argminIdx l = l.length - 1 := by
  have hlt := argminIdx_lt l hne
  by_contra hcon
  have hm : argminIdx l < l.length - 1 := by omega
  have h1 := argminIdx_le l (l.length - 1) (by omega)
  have h2 := hdec (argminIdx l) (l.length - 1) (by omega) (by omega)
  linarith

theorem absSamples_getD {eps : ℝ} {grid : List ℝ} {j : ℕ} (hj : j < grid.length) :
    ((tbSamples eps grid).map (fun v => |v|)).getD j 0 =
      |(tbSamples eps grid).getD j 0| := by
  have hmaplen : ((tbSamples eps grid).map (fun v => |v|)).length = grid.length := by
    rw [List.length_map, tbSamples_length]
  rw [List.getD_eq_getElem _ _ (by omega),
    List.getD_eq_getElem _ _ (by rw [tbSamples_length]; exact hj), List.getElem_map]

theorem fig4Grid_getD_mono {j k : ℕ} (hjk : j < k) (hk : k < 4000) :
    fig4Grid.getD j 0 < fig4Grid.getD k 0 := by
  rw [fig4Grid_getD (by omega), fig4Grid_getD hk]
  have hc : (j : ℝ) < k := by exact_mod_cast hjk
  have hd : (0 : ℝ) < 0.1495 / 3999 := by norm_num
  nlinarith

/-- Value of `find_a_eq` at `eps = 0`: the torque samples are all positive,
so no sign change exists and the fallback returns the grid point of minimal
absolute torque, which is the last grid point `0.9995`. -/
theorem find_a_eq_zero : find_a_eq 0 fig4Grid = 0.9995 := by
  have hlen := fig4Grid_length
  have hylen := tbSamples_length (0 : ℝ) fig4Grid
  have hpos : ∀ j, j < (tbSamples (0 : ℝ) fig4Grid).length →
      0 < (tbSamples (0 : ℝ) fig4Grid).getD j 0 := by
    intro j hj
    rw [tbSamples_getD (by omega)]
    have hub := fig4Grid_getD_ub (show j < 4000 by omega)
    have hlb := fig4Grid_getD_lb (show j < 4000 by omega)
    have hs : 0 < Real.sqrt (1 - fig4Grid.getD j 0) := Real.sqrt_pos.mpr (by linarith)
    have hp : 0 < (1 - fig4Grid.getD j 0) * Real.sqrt (1 - fig4Grid.getD j 0) :=
      mul_pos (by linarith) hs
    have hq : torque_balance (fig4Grid.getD j 0) 0 =
        (1 - fig4Grid.getD j 0) * Real.sqrt (1 - fig4Grid.getD j 0) := by
      rw [torque_balance_sqrt 0 (by linarith)]
      ring
    rw [hq]
    exact hp
  have hfc : firstCross (tbSamples 0 fig4Grid) = none :=
    firstCrossAux_none_of _ 0 hpos
  have hmaplen : ((tbSamples (0 : ℝ) fig4Grid).map (fun v => |v|)).length = 4000 := by
    rw [List.length_map, hylen, hlen]
  have hdec : ∀ j k, j < k →
      k < ((tbSamples (0 : ℝ) fig4Grid).map (fun v => |v|)).length →
      ((tbSamples (0 : ℝ) fig4Grid).map (fun v => |v|)).getD k 0 <
        ((tbSamples (0 : ℝ) fig4Grid).map (fun v => |v|)).getD j 0 := by
    intro j k hjk hk
    rw [hmaplen] at hk
    rw [absSamples_getD (by omega), absSamples_getD (by omega)]
    rw [abs_of_pos (hpos j (by omega)), abs_of_pos (hpos k (by omega))]
    rw [tbSamples_getD (by omega), tbSamples_getD (by omega)]
    have hmono := fig4Grid_getD_mono hjk hk
    have := (tb_two_point (le_refl (0 : ℝ)) (by norm_num)
      (fig4Grid_getD_lb (show j < 4000 by omega)) hmono.le
      (fig4Grid_getD_ub hk)).1
    linarith
  have hne : (tbSamples (0 : ℝ) fig4Grid).map (fun v => |v|) ≠ [] := by
    intro h0
    have := congrArg List.length h0
    rw [hmaplen] at this
    simp at this
  have hargmin := argminIdx_eq_last hne hdec
  rw [hmaplen] at hargmin
  have hres : find_a_eq 0 fig4Grid =
      fig4Grid.getD (argminIdx ((tbSamples (0 : ℝ) fig4Grid).map (fun v => |v|))) 0 := by
    unfold find_a_eq bracketRoot
    rw [hfc]
  rw [hres, hargmin]
  exact fig4Grid_last

/-- C4 witness: the theorem applied with a zero derivative function from
start value `0.9995 = find_a_eq 0`, which stops at the first step with
accumulated time `1 * dt`. -/
theorem C4_time_to_equilibrium_nan_iff_witness :
    (time_to_equilibrium 0 0.9995 (fun _ _ => 0) 0.5 1 1e-4).1 =
      some (((0 + 1 : ℕ) : ℝ) * 0.5) :=
  (C4_time_to_equilibrium_nan_iff 0 0.9995 (fun _ _ => 0) 0.5 1 1e-4).2 0 (by norm_num)
    (by
      rw [find_a_eq_zero]
      have h1 : eulerState (fun _ _ => (0 : ℝ)) 0 0.9995 0.5 0 = 0.9995 := rfl
      rw [h1]
      have h2 : eulerNext (fun _ _ => (0 : ℝ)) 0 0.5 0.9995 = 0.9995 := by
        unfold eulerNext
        ring
      rw [h2]
      norm_num)
    (fun k hk => absurd hk (by omega))
